import Mathlib

/-!
Verification of the NorthStar client-notes parsing engine.

The development shallowly embeds the engine found in
`src/components/BriefingWorkflowPrototype.jsx` (classes `ClientNotesParser`,
`DocumentPreprocessor`, `ParsingCache`, `ParsingValidator`, `FallbackParser`)
and the `StructureAgnosticParser` of the unnamed source file.  Text is
modelled as `List Char`; JavaScript regular-expression passes over strings
are implemented as total recursive functions whose semantics follow the
concrete regular expressions of the source (leftmost match, greedy/lazy
repetition as noted at each definition).  Scans that resume after a
multi-character match are written with an explicit skip counter so that
every definition is structurally recursive and kernel-evaluable.
JavaScript numbers are modelled as exact rationals `ℚ`; the inputs
evaluated here only exercise arithmetic that is exact in binary floating
point.
-/

/-- The JavaScript `\s` class, restricted to the ASCII range (the inputs
considered here contain no Unicode space separators). -/
def isJsWs (c : Char) : Bool :=
  c = ' ' || c = '\t' || c = '\n' || c = '\r' || c = '\x0b' || c = '\x0c'

/-- The JavaScript `\w` class `[A-Za-z0-9_]`. -/
def isWordChar (c : Char) : Bool :=
  ('a' ≤ c && c ≤ 'z') || ('A' ≤ c && c ≤ 'Z') || ('0' ≤ c && c ≤ '9') || c = '_'

/-- JavaScript line terminators excluded by the regex `.` class
(`\n`, `\r`, U+2028, U+2029). -/
def isLineTerm (c : Char) : Bool :=
  c = '\n' || c = '\r' || c = Char.ofNat 0x2028 || c = Char.ofNat 0x2029

/-- ASCII `toLowerCase`, the case folding exercised by the source's inputs. -/
def lowerCh (c : Char) : Char :=
  if 'A' ≤ c ∧ c ≤ 'Z' then Char.ofNat (c.toNat + 32) else c

def lowerStr (l : List Char) : List Char := l.map lowerCh

/-- JavaScript `String.prototype.trim`. -/
def jsTrim (l : List Char) : List Char :=
  ((l.dropWhile isJsWs).reverse.dropWhile isJsWs).reverse

/-- Case-insensitive prefix test (both sides folded to lower case). -/
def ciIsPrefixOf (pat l : List Char) : Bool :=
  (lowerStr pat).isPrefixOf (lowerStr l)

/-- Index of the first occurrence of `pat` as a contiguous sublist
(JavaScript `String.prototype.indexOf`; `none` when absent). -/
def findSub (pat : List Char) : List Char → Option Nat
  | [] => if pat = [] then some 0 else none
  | c :: cs =>
    if pat.isPrefixOf (c :: cs) then some 0
    else (findSub pat cs).map (· + 1)

/-- JavaScript `String.prototype.includes`. -/
def containsSub (pat l : List Char) : Bool := (findSub pat l).isSome

/-- Case-insensitive `includes`. -/
def containsSubCI (pat l : List Char) : Bool :=
  containsSub (lowerStr pat) (lowerStr l)

/-- `String.prototype.replace` with a `g`-flagged literal pattern:
non-overlapping occurrences are replaced left to right, and replacement
text is not rescanned.  The skip counter consumes the remainder of a
matched occurrence. -/
def replaceSeqGo (pat rep : List Char) : Nat → List Char → List Char
  | _, [] => []
  | n + 1, _ :: cs => replaceSeqGo pat rep n cs
  | 0, c :: cs =>
    if pat.isPrefixOf (c :: cs) ∧ pat ≠ [] then
      rep ++ replaceSeqGo pat rep (pat.length - 1) cs
    else c :: replaceSeqGo pat rep 0 cs

def replaceSeq (pat rep l : List Char) : List Char := replaceSeqGo pat rep 0 l

/-- Split at every character satisfying `p`
(JavaScript `split` with a one-character-class regex). -/
def splitOnPred (p : Char → Bool) : List Char → List (List Char)
  | [] => [[]]
  | c :: cs =>
    if p c then [] :: splitOnPred p cs
    else
      match splitOnPred p cs with
      | [] => [[c]]
      | x :: xs => (c :: x) :: xs

/-- First-occurrence deduplication, the effect of `[...new Set(items)]`
(the accumulator is the set of values already inserted). -/
def jsDedupGo (seen : List (List Char)) : List (List Char) → List (List Char)
  | [] => []
  | x :: xs =>
    if x ∈ seen then jsDedupGo seen xs else x :: jsDedupGo (x :: seen) xs

def jsDedup (l : List (List Char)) : List (List Char) := jsDedupGo [] l

/-- `\b` helper: the character before a match (when any) must not be a
word character. -/
def noWordBefore (prev : Option Char) : Bool :=
  match prev with
  | none => true
  | some p => !isWordChar p

/-- `\b` helper: the text after a match must not begin with a word
character. -/
def noWordAt (l : List Char) : Bool :=
  match l with
  | [] => true
  | d :: _ => !isWordChar d

namespace DocumentPreprocessor

/-- `this.commonOCRErrors` of `DocumentPreprocessor`. -/
def commonOCRErrors : List (List Char × List Char) :=
  [("rnay".data, "may".data), ("frorn".data, "from".data),
   ("cornpany".data, "company".data), ("custorner".data, "customer".data)]

/-- `normalizeEncoding`: the ordered mojibake/Unicode-punctuation
replacements.  (The later `â€"` and `â€¦` patterns can never fire because
their prefix `â€` is rewritten by the third step, exactly as in the
source.) -/
def normalizeEncoding (content : List Char) : List Char :=
  content
  |> replaceSeq "â€™".data "'".data
  |> replaceSeq "â€œ".data "\"".data
  |> replaceSeq "â€".data "\"".data
  |> replaceSeq "â€\"".data "-".data
  |> replaceSeq "â€¦".data "...".data
  |> replaceSeq "’".data "'".data
  |> replaceSeq "“".data "\"".data
  |> replaceSeq "”".data "\"".data
  |> replaceSeq "—".data "-".data

/-- `/<[^>]*>/g → ''`: from each `<` that a later `>` closes, everything
through the first such `>` is dropped (`[^>]*` may span lines); a `<`
with no closing `>` is literal text.  The Boolean state is "inside a
tag". -/
def stripTagsGo : Bool → List Char → List Char
  | _, [] => []
  | true, c :: cs => if c = '>' then stripTagsGo false cs else stripTagsGo true cs
  | false, c :: cs =>
    if c = '<' ∧ '>' ∈ cs then stripTagsGo true cs
    else c :: stripTagsGo false cs

def stripTags (l : List Char) : List Char := stripTagsGo false l

/-- `/\[.*?\]/g → ''`: lazy `.*?` stops at the first `]`; `.` matches no
line terminator, so the pair must close before the line does.  The
Boolean state is "inside a bracket pair". -/
def stripBracketsGo : Bool → List Char → List Char
  | _, [] => []
  | true, c :: cs => if c = ']' then stripBracketsGo false cs else stripBracketsGo true cs
  | false, c :: cs =>
    if c = '[' ∧ ']' ∈ cs.takeWhile (fun x => !isLineTerm x) then
      stripBracketsGo true cs
    else c :: stripBracketsGo false cs

def stripBrackets (l : List Char) : List Char := stripBracketsGo false l

/-- Splits `l` as `inner ++ [m, m] ++ rest` at the first adjacent marker
pair, failing on an intervening line terminator (the lazy body of
`/\*\*(.*?)\*\*/` and `/__(.*?)__/`). -/
def splitAtPair (m : Char) : List Char → Option (List Char × List Char)
  | [] => none
  | [_] => none
  | x :: y :: rest =>
    if x = m ∧ y = m then some ([], rest)
    else if isLineTerm x then none
    else
      match splitAtPair m (y :: rest) with
      | some (inner, rest2) => some (x :: inner, rest2)
      | none => none

/-- `/\*\*(.*?)\*\*/g → '$1'` (and `/__(.*?)__/g`): the pair markers are
dropped, the lazy inner text is kept and, as with every `g` replacement,
not rescanned; the fuel argument (initially the text length) only
bounds the recursion. -/
def stripPairGo (m : Char) : Nat → List Char → List Char
  | 0, l => l
  | _ + 1, [] => []
  | fuel + 1, c :: cs =>
    if c = m ∧ cs.head? = some m then
      match splitAtPair m cs.tail with
      | some (inner, rest) => inner ++ stripPairGo m fuel rest
      | none => c :: stripPairGo m fuel cs
    else c :: stripPairGo m fuel cs

def stripPair (m : Char) (l : List Char) : List Char := stripPairGo m l.length l

/-- `convertToPlainText`: tag stripping, markdown-link deletion, bold and
underline unwrapping, in source order. -/
def convertToPlainText (content : List Char) : List Char :=
  content |> stripTags |> stripBrackets |> stripPair '*' |> stripPair '_'

/-- One `\b<word>\b` case-insensitive global replacement (an OCR fix).
Boundaries are checked against the original text; while the skip counter
consumes a matched word the characters passed over become the preceding
character for the next boundary check. -/
def replaceWordCIGo (w rep : List Char) : Nat → Option Char → List Char → List Char
  | _, _, [] => []
  | n + 1, _, c :: cs => replaceWordCIGo w rep n (some c) cs
  | 0, prev, c :: cs =>
    if w ≠ [] ∧ (ciIsPrefixOf w (c :: cs) && noWordBefore prev &&
        noWordAt ((c :: cs).drop w.length)) = true then
      rep ++ replaceWordCIGo w rep (w.length - 1) (some c) cs
    else c :: replaceWordCIGo w rep 0 (some c) cs

def replaceWordCI (w rep l : List Char) : List Char := replaceWordCIGo w rep 0 none l

/-- `correctCommonOCRErrors`: the four word substitutions in table order. -/
def correctCommonOCRErrors (content : List Char) : List Char :=
  commonOCRErrors.foldl (fun acc p => replaceWordCI p.1 p.2 acc) content

/-- `/^(\s*)-\s+/gm → '• '` (and the analogous `/^(\s*)o\s+/gm` pass).
The captured leading whitespace is dropped, the greedy `\s+` may consume
line breaks, and scanning resumes at a line start exactly when the
consumed whitespace ended in a newline.  The skip counter consumes the
text already accounted for; the Boolean is "the next unskipped position
is a line start". -/
def dashGo (marker : Char) : Nat → Bool → List Char → List Char
  | _, _, [] => []
  | n + 1, st, _ :: cs => dashGo marker n st cs
  | 0, atStart, c :: cs =>
    if atStart then
      let ws := (c :: cs).takeWhile isJsWs
      match (c :: cs).dropWhile isJsWs with
      | [] => ws
      | r :: rr =>
        if r = marker ∧ (rr.takeWhile isJsWs) ≠ [] then
          let run := rr.takeWhile isJsWs
          '•' :: ' ' ::
            dashGo marker (ws.length + run.length) (run.getLast? = some '\n') cs
        else
          (ws ++ [r]) ++ dashGo marker ws.length (r = '\n') cs
    else c :: dashGo marker 0 (c = '\n') cs

def dashPass (marker : Char) (l : List Char) : List Char := dashGo marker 0 true l

/-- `/^(\s*)\*/gm → '• '`: as `dashPass` but with no trailing-whitespace
requirement; the consumed text ends at the `*` itself, so scanning never
resumes at a line start. -/
def starGo : Nat → Bool → List Char → List Char
  | _, _, [] => []
  | n + 1, st, _ :: cs => starGo n st cs
  | 0, atStart, c :: cs =>
    if atStart then
      let ws := (c :: cs).takeWhile isJsWs
      match (c :: cs).dropWhile isJsWs with
      | [] => ws
      | r :: _rr =>
        if r = '*' then
          '•' :: ' ' :: starGo ws.length false cs
        else
          (ws ++ [r]) ++ starGo ws.length (r = '\n') cs
    else c :: starGo 0 (c = '\n') cs

def starPass (l : List Char) : List Char := starGo 0 true l

/-- `preserveStructuralElements`: dash, asterisk and `o` bullets become
`• `, in three successive global passes. -/
def preserveStructuralElements (content : List Char) : List Char :=
  content |> dashPass '-' |> starPass |> dashPass 'o'

/-- `/ +/g → ' '`: runs of plain spaces collapse to one space (state:
the previous character was a space). -/
def collapseSpacesGo : Bool → List Char → List Char
  | _, [] => []
  | prevSp, c :: cs =>
    if c = ' ' then
      if prevSp then collapseSpacesGo true cs else ' ' :: collapseSpacesGo true cs
    else c :: collapseSpacesGo false cs

def collapseSpaces (l : List Char) : List Char := collapseSpacesGo false l

/-- `/\n{3,}/g → '\n\n'`: a maximal run of three or more newlines becomes
exactly two. -/
def collapseNewlinesGo : Nat → List Char → List Char
  | _, [] => []
  | n + 1, _ :: cs => collapseNewlinesGo n cs
  | 0, c :: cs =>
    if c = '\n' then
      let run := cs.takeWhile (· = '\n')
      (if 2 ≤ run.length then ['\n', '\n'] else '\n' :: run) ++
        collapseNewlinesGo run.length cs
    else c :: collapseNewlinesGo 0 cs

def collapseNewlines (l : List Char) : List Char := collapseNewlinesGo 0 l

/-- `/\t/g → '    '`: each tab becomes four spaces. -/
def expandTabs (l : List Char) : List Char :=
  l.flatMap fun c => if c = '\t' then "    ".data else [c]

/-- `normalizeWhitespace`: line endings, tabs (to four spaces), space runs
and blank-line runs. -/
def normalizeWhitespace (content : List Char) : List Char :=
  content
  |> replaceSeq "\r\n".data "\n".data
  |> expandTabs
  |> collapseSpaces
  |> collapseNewlines

/-- `DocumentPreprocessor.process`: the five preprocessing steps in order. -/
def process (content : List Char) : List Char :=
  content
  |> normalizeEncoding
  |> convertToPlainText
  |> correctCommonOCRErrors
  |> preserveStructuralElements
  |> normalizeWhitespace

end DocumentPreprocessor

namespace ClientNotesParser

/-- `/\s+/g → ' '`: every whitespace run (newlines included) becomes a
single space.  This is the step of `normalizeContent` that joins the
document onto one line.  (State: the previous character was
whitespace.) -/
def collapseWsGo : Bool → List Char → List Char
  | _, [] => []
  | prevWs, c :: cs =>
    if isJsWs c then
      if prevWs then collapseWsGo true cs else ' ' :: collapseWsGo true cs
    else c :: collapseWsGo false cs

def collapseWsRuns (l : List Char) : List Char := collapseWsGo false l

/-- Suffix of a whitespace run after its last newline. -/
def afterLastNl (run : List Char) : List Char :=
  (run.reverse.takeWhile (· ≠ '\n')).reverse

/-- `/\n\s*\n\s*\n/g → '\n\n'`: a match starts at a newline whose maximal
whitespace run holds two further newlines; the greedy `\s*` extend the
match to the run's last newline. -/
def collapseBlankGo : Nat → List Char → List Char
  | _, [] => []
  | n + 1, _ :: cs => collapseBlankGo n cs
  | 0, c :: cs =>
    if c = '\n' then
      let run := cs.takeWhile isJsWs
      (if 2 ≤ (run.filter (· = '\n')).length then
        '\n' :: '\n' :: afterLastNl run
      else c :: run) ++ collapseBlankGo run.length cs
    else c :: collapseBlankGo 0 cs

def collapseBlankLines (l : List Char) : List Char := collapseBlankGo 0 l

/-- `/[""]/g → '"'`: in the source file the curly-quote character class
survives only as two ASCII quotes, so the replacement maps `"` to `"` and
is the identity; it is kept as written. -/
def fixDoubleQuotes (l : List Char) : List Char :=
  l.map fun c => if c = '"' then '"' else c

/-- `/['']/g → "'"`: likewise the identity on the ASCII apostrophe. -/
def fixSingleQuotes (l : List Char) : List Char :=
  l.map fun c => if c = '\'' then '\'' else c

/-- `/^[-•*]\s*/gm → '• '`: a line-initial bullet marker and the greedy
whitespace after it (line breaks included) become `• `; scanning resumes
at a line start exactly when the consumed whitespace ended in a
newline. -/
def bulletGo : Nat → Bool → List Char → List Char
  | _, _, [] => []
  | n + 1, st, _ :: cs => bulletGo n st cs
  | 0, atStart, c :: cs =>
    if atStart ∧ (c = '-' ∨ c = '•' ∨ c = '*') then
      let run := cs.takeWhile isJsWs
      '•' :: ' ' :: bulletGo run.length (run.getLast? = some '\n') cs
    else c :: bulletGo 0 (c = '\n') cs

def bulletLines (l : List Char) : List Char := bulletGo 0 true l

/-- `/^\d+\.\s*/gm` with the replacement `(match) => match` rewrites every
match to itself: the identity. -/
def keepNumbered (l : List Char) : List Char := l

/-- `ClientNotesParser.normalizeContent`, step for step. -/
def normalizeContent (content : List Char) : List Char :=
  content
  |> replaceSeq "\r\n".data "\n".data
  |> List.map (fun c => if c = '\r' then '\n' else c)
  |> List.map (fun c => if c = '\t' then ' ' else c)
  |> collapseWsRuns
  |> collapseBlankLines
  |> fixDoubleQuotes
  |> fixSingleQuotes
  |> bulletLines
  |> keepNumbered

end ClientNotesParser


/-! ### C7: idempotence of content normalization -/

/-- Every whitespace character of `u` is a plain space. -/
def onlySpaceWs (u : List Char) : Prop := ∀ c ∈ u, isJsWs c = true → c = ' '

/-- No two adjacent characters of `u` are both whitespace. -/
def noWsPair (u : List Char) : Prop :=
  List.Chain' (fun a b => ¬(isJsWs a = true ∧ isJsWs b = true)) u

/-- A normalized text begins with a bullet marker only in the canonical
`• ` form. -/
def bulletNormal (u : List Char) : Prop :=
  u.head? ≠ some '-' ∧ u.head? ≠ some '*' ∧
    (u.head? = some '•' → u.tail.head? = some ' ')

/-! ### Data model

`ClientProfile` and the engine's result records, as initialized by
`initializeParsedData` and returned by `parse`.  `expectedCompetitors` is
the extra key that `applyClientProfile` may add to a profile object;
`none` models its absence. -/

abbrev Str := List Char

structure Sources where
  tier1 : List Str
  tier2 : List Str
  tier3 : List Str
  handSearch : List Str
deriving Repr, DecidableEq

structure BriefingInfo where
  schedule : Str
  audience : Str
  length : Str
deriving Repr, DecidableEq

structure Profile where
  clientName : Str
  industry : Str
  games : List Str
  executives : List Str
  competitors : List Str
  excludedTopics : List Str
  sources : Sources
  briefingInfo : BriefingInfo
  contacts : List Str
  expectedCompetitors : Option (List Str)
deriving Repr, DecidableEq

/-- `Object.values(sources).flat().length`. -/
def Sources.flatLen (s : Sources) : Nat :=
  s.tier1.length + s.tier2.length + s.tier3.length + s.handSearch.length

/-- `Object.keys` of a sources object: always the same four keys, whatever
the tier contents. -/
def Sources.jsKeys (_ : Sources) : List Str :=
  ["tier1".data, "tier2".data, "tier3".data, "handSearch".data]

/-- `Object.keys` of a briefingInfo object. -/
def BriefingInfo.jsKeys (_ : BriefingInfo) : List Str :=
  ["schedule".data, "audience".data, "length".data]

structure FieldScores where
  clientName : ℚ
  industry : ℚ
  competitors : ℚ
  sources : ℚ
  excludedTopics : ℚ
deriving Repr, DecidableEq

structure ConfDetail where
  field : Str
  issue : Str
  suggestion : Str
deriving Repr, DecidableEq

/-- The rich confidence object of `calculateConfidence` has `overall`,
`fields` and `details`; the object built by the fallback branch has only
`overall`.  `rest = none` models the latter shape. -/
structure ConfRest where
  fields : FieldScores
  details : List ConfDetail
deriving Repr, DecidableEq

structure Confidence where
  overall : ℚ
  rest : Option ConfRest
deriving Repr, DecidableEq

structure Issue where
  field : Str
  level : Str
  message : Str
  suggestion : Str
deriving Repr, DecidableEq

structure ValidationResult where
  isValid : Bool
  issues : List Issue
  score : ℚ
deriving Repr, DecidableEq

structure Warning where
  level : Str
  message : Str
  suggestion : Str
deriving Repr, DecidableEq

structure Metadata where
  fileName : Option Str
deriving Repr, DecidableEq

structure ParseResult where
  data : Profile
  confidence : Confidence
  documentType : Str
  validation : ValidationResult
  warnings : List Warning
  metadata : Metadata
deriving Repr, DecidableEq

/-- JavaScript `>` between an object and a number: `ToPrimitive` turns the
object into `"[object Object]"`, `ToNumber` of that is `NaN`, and every
relational comparison involving `NaN` is false.  Both the cache guard
`cachedResult.confidence > 0.9` and the fallback guard
`fallbackResult.confidence > confidence.overall` compare a confidence
*object* against a number, so both are always false. -/
def jsObjGtNum (_ : Confidence) (_ : ℚ) : Bool := false

/-- `Math.round` (half away from zero for positives): `⌊q + 1/2⌋`. -/
def jsRound (q : ℚ) : Int := Int.floor (q + 1/2)

/-- Decimal rendering of an integer, for interpolated messages. -/
def numToStr (n : Int) : Str := (toString n).data

namespace ClientNotesParser

/-- `initializeParsedData`. -/
def initializeParsedData : Profile :=
  { clientName := [], industry := [], games := [], executives := [],
    competitors := [], excludedTopics := [],
    sources := { tier1 := [], tier2 := [], tier3 := [], handSearch := [] },
    briefingInfo := { schedule := [], audience := [], length := [] },
    contacts := [], expectedCompetitors := none }

/-- `this.fieldVariations` (defaults, before custom patterns merge). -/
def defaultFieldVariations : List (Str × List Str) :=
  [("client".data, ["client".data, "customer".data, "account".data, "company".data,
      "organization".data]),
   ("industry".data, ["industry".data, "sector".data, "vertical".data, "business".data,
      "field".data, "market".data]),
   ("competitors".data, ["competitors".data, "competition".data,
      "competitive intelligence".data, "competitor news".data, "competing".data,
      "rivals".data]),
   ("products".data, ["products".data, "games".data, "properties".data, "offerings".data,
      "services".data, "portfolio".data]),
   ("executives".data, ["executives".data, "leadership".data, "management".data,
      "c-suite".data, "officers".data, "leaders".data]),
   ("excluded".data, ["excluded".data, "exclude".data, "do not include".data,
      "avoid".data, "omit".data, "restrictions".data, "sensitive".data]),
   ("sources".data, ["sources".data, "publications".data, "media".data, "outlets".data,
      "news sources".data, "highlighted sources".data]),
   ("briefing".data, ["briefing".data, "schedule".data, "delivery".data,
      "distribution".data, "timing".data]),
   ("audience".data, ["audience".data, "recipients".data, "readers".data,
      "stakeholders".data, "distribution list".data])]

/-- One entry of `this.clientPatterns`. -/
structure ClientPattern where
  indicators : List Str
  competitorPatterns : List Str
deriving Repr, DecidableEq

/-- `this.clientPatterns` (gaming, technology, healthcare, in insertion
order; `expectedFields` is never read by the engine and is omitted). -/
def clientPatterns : List (Str × ClientPattern) :=
  [("gaming".data,
    { indicators := ["game".data, "gaming".data, "esports".data, "console".data,
        "mobile gaming".data, "pc gaming".data],
      competitorPatterns := ["EA".data, "Electronic Arts".data, "Ubisoft".data,
        "Nintendo".data, "Sony".data, "Microsoft".data, "Activision".data,
        "Blizzard".data, "Epic Games".data] }),
   ("technology".data,
    { indicators := ["cloud".data, "saas".data, "software".data, "tech".data, "IT".data,
        "digital".data, "cyber".data],
      competitorPatterns := ["IBM".data, "AWS".data, "Google Cloud".data,
        "Microsoft".data, "Oracle".data, "Salesforce".data, "SAP".data] }),
   ("healthcare".data,
    { indicators := ["health".data, "medical".data, "pharma".data, "biotech".data,
        "clinical".data],
      competitorPatterns := ["Pfizer".data, "J&J".data, "Roche".data, "Novartis".data,
        "Merck".data, "GSK".data] })]

/-- One entry of `this.clientProfiles` (only the members the engine
reads: `industryDefault` and `customPatterns.competitors`). -/
structure ClientProfileCfg where
  industryDefault : Str
  customCompetitors : Option (List Str)
deriving Repr, DecidableEq

/-- `this.clientProfiles` (rackspace, activision). -/
def clientProfiles : List (Str × ClientProfileCfg) :=
  [("rackspace".data,
    { industryDefault := "Cloud Technology / Managed Services".data,
      customCompetitors := some ["IBM".data, "Tierpoint".data, "WiPro".data,
        "Wipro".data, "Accenture".data, "Cloudreach".data, "DXC".data] }),
   ("activision".data,
    { industryDefault := "Video Game Publishing".data,
      customCompetitors := none })]

/-- Inner loop step of `calculateEditDistance`: given `s2`'s current
character, the remaining characters of `s1`, the remainder of the
previous row (head = `costs[j-1]`) and the value just computed for the
new row (`lastValue`), produce the rest of the new row.  A mismatch costs
`min(min(costs[j-1], lastValue), costs[j]) + 1`, a match costs
`costs[j-1]`, exactly as in the source's array-juggling loop. -/
def edNextRow (c2 : Char) : List Char → List Nat → Nat → List Nat
  | [], _, _ => []
  | _ :: _, [], _ => []
  | _ :: _, [_], _ => []
  | c1 :: s1rest, p0 :: p1 :: prest, last =>
    let nv := if c1 = c2 then p0 else min (min p0 last) p1 + 1
    nv :: edNextRow c2 s1rest (p1 :: prest) nv

/-- `calculateEditDistance(s1, s2)`: row 0 is `0..s1.length`; each
character of `s2` produces the next row with boundary `i`; the answer is
the last cell of the final row. -/
def calculateEditDistance (s1 s2 : Str) : Nat :=
  let row0 := List.range (s1.length + 1)
  let final := s2.foldl
    (fun acc c2 =>
      let i := acc.2 + 1
      (i :: edNextRow c2 s1 acc.1 i, i))
    (row0, 0)
  (final.1.getLast?).getD 0

/-- `fuzzyMatch(str1, str2)`: exact 1, containment 0.8, otherwise
`(longer.length − editDistance) / longer.length`.  JavaScript doubles are
modelled as exact rationals. -/
def fuzzyMatch (str1 str2 : Str) : ℚ :=
  let s1 := lowerStr str1
  let s2 := lowerStr str2
  if s1 = s2 then 1
  else if containsSub s2 s1 || containsSub s1 s2 then 8/10
  else
    let longer := if s1.length > s2.length then s1 else s2
    let shorter := if s1.length > s2.length then s2 else s1
    if longer.length = 0 then 1
    else ((longer.length : ℚ) - calculateEditDistance longer shorter) / longer.length

/-- Collapse each run of characters satisfying `p` to the single
character `r` (`replace(/[…]+/g, r)` for a character class). -/
def collapseClassGo (p : Char → Bool) (r : Char) : Bool → Str → Str
  | _, [] => []
  | prev, c :: cs =>
    if p c then
      if prev then collapseClassGo p r true cs else r :: collapseClassGo p r true cs
    else c :: collapseClassGo p r false cs

/-- `classifySection(headerText)`: lower-case, collapse `[:\s]+` runs to a
space, trim, then return the first field whose variation list holds a
fuzzy match above 0.7 (iteration order = insertion order). -/
def classifySection (fieldVariations : List (Str × List Str)) (headerText : Str) : Str :=
  let normalized :=
    jsTrim (collapseClassGo (fun c => c = ':' || isJsWs c) ' ' false (lowerStr headerText))
  match fieldVariations.find?
      (fun fv => fv.2.any (fun v => decide (fuzzyMatch normalized v > 7/10))) with
  | some fv => fv.1
  | none => "unknown".data

structure DocSection where
  header : Str
  startLine : Nat
  endLine : Nat
  content : Str
  type : Str
deriving Repr, DecidableEq

structure DocStructure where
  type : Str
  sections : List DocSection
  hasHeaders : Bool
  hasBullets : Bool
  hasNumbering : Bool
  lineCount : Nat
  avgLineLength : ℚ
deriving Repr, DecidableEq

/-- `/^[A-Z][A-Za-z\s]+:?\s*$/`: an upper-case letter, at least one more
letter or whitespace, an optional colon, trailing whitespace. -/
def isHeaderLine (line : Str) : Bool :=
  match line with
  | [] => false
  | c :: rest =>
    ('A' ≤ c && c ≤ 'Z') &&
    (let core := (rest.reverse.dropWhile isJsWs).reverse
     let body := if core.getLast? = some ':' then core.dropLast else core
     body ≠ [] &&
       body.all (fun x => ('A' ≤ x && x ≤ 'Z') || ('a' ≤ x && x ≤ 'z') || isJsWs x))

/-- `/^[•\-*]\s+/`. -/
def isBulletLine (line : Str) : Bool :=
  match line with
  | m :: d :: _ => (m = '•' || m = '-' || m = '*') && isJsWs d
  | _ => false

/-- `/^\d+\.\s+/`. -/
def isNumberedLine (line : Str) : Bool :=
  let ds := line.takeWhile (fun c => '0' ≤ c && c ≤ '9')
  ds ≠ [] &&
    (match line.drop ds.length with
     | '.' :: d :: _ => isJsWs d
     | _ => false)

/-- The header lines of `analyzeDocumentStructure`: a header-shaped line
followed by a non-blank line (`text` is the trimmed line). -/
def sectionHeaders (lines : List Str) : List (Str × Nat) :=
  (lines.enum.filter fun p =>
    isHeaderLine p.2 && p.1 + 1 < lines.length &&
      decide (jsTrim ((lines.get? (p.1 + 1)).getD []) ≠ [])).map
    fun p => (jsTrim p.2, p.1)

/-- `identifySections`. -/
def identifySections (fieldVariations : List (Str × List Str)) (lines : List Str)
    (headers : List (Str × Nat)) : List DocSection :=
  headers.enum.map fun p =>
    let startIdx := p.2.2
    let endIdx := match headers.get? (p.1 + 1) with
      | some h2 => h2.2
      | none => lines.length
    { header := p.2.1, startLine := startIdx, endLine := endIdx,
      content := List.intercalate ['\n'] ((lines.drop (startIdx + 1)).take (endIdx - (startIdx + 1))),
      type := classifySection fieldVariations p.2.1 }

/-- `determineDocumentType`. -/
def determineDocumentType (st : DocStructure) : Str :=
  if 5 < st.sections.length ∧ st.hasHeaders then "structured".data
  else if st.hasBullets ∨ st.hasNumbering then "semi-structured".data
  else if 50 < st.avgLineLength then "narrative".data
  else "brief".data

/-- `analyzeDocumentStructure`. -/
def analyzeDocumentStructure (fieldVariations : List (Str × List Str))
    (content : Str) : DocStructure :=
  let lines := splitOnPred (· = '\n') content
  let headers := sectionHeaders lines
  let totalLength := (lines.map List.length).sum
  let base : DocStructure :=
    { type := "unknown".data,
      sections := identifySections fieldVariations lines headers,
      hasHeaders := headers ≠ [],
      hasBullets := lines.any isBulletLine,
      hasNumbering := lines.any isNumberedLine,
      lineCount := lines.length,
      avgLineLength := (totalLength : ℚ) / lines.length }
  { base with type := determineDocumentType base }

end ClientNotesParser

namespace ClientNotesParser

/-! ### Strategy 1: pattern matching -/

/-- Scan every position for the first successful match attempt
(an unanchored `.match`). -/
def scanAll (f : Str → Option Str) : Str → Option Str
  | [] => none
  | c :: cs =>
    match f (c :: cs) with
    | some r => some r
    | none => scanAll f cs

/-- Scan only line-start positions (`m`-flagged `^…`). -/
def scanLineStarts (f : Str → Option Str) : Bool → Str → Option Str
  | _, [] => none
  | atStart, c :: cs =>
    if atStart then
      match f (c :: cs) with
      | some r => some r
      | none => scanLineStarts f (c = '\n') cs
    else scanLineStarts f (c = '\n') cs

/-- `[\s:]` — the label separator class. -/
def isSepWsColon (c : Char) : Bool := isJsWs c || c = ':'

/-- `<label>[\s:]+([^\n]+)` at one position: the label (case-insensitive),
a greedy separator run backtracked just enough for `[^\n]+` to take at
least one character, then the rest of the line. -/
def labelValueAt (label : Str) (l : Str) : Option Str :=
  if ciIsPrefixOf label l then
    let rest := (l.drop label.length)
    let run := rest.takeWhile isSepWsColon
    let after := rest.drop run.length
    if run.length = 0 then none
    else if after ≠ [] then some (after.takeWhile (· ≠ '\n'))
    else
      -- the string ends inside the separator run: back the run up to its
      -- last character that `[^\n]+` may consume
      let trailNl := (run.reverse.takeWhile (· = '\n')).length
      let j := run.length - 1 - trailNl
      if trailNl < run.length ∧ 1 ≤ j then some ((rest.drop j).takeWhile (· ≠ '\n'))
      else none
  else none

/-- `[A-Za-z0-9\s&\(\)\.]` — the first client-pattern's name class. -/
def p1Class (c : Char) : Bool :=
  ('A' ≤ c && c ≤ 'Z') || ('a' ≤ c && c ≤ 'z') || ('0' ≤ c && c ≤ '9') ||
    isJsWs c || c = '&' || c = '(' || c = ')' || c = '.'

/-- The trailing literal alternation of the first client pattern. -/
def p1Lit (l : Str) : Bool :=
  ciIsPrefixOf "Client Notes".data l || ciIsPrefixOf "Client Brief".data l ||
    ciIsPrefixOf "Notes".data l || ciIsPrefixOf "Brief".data l

/-- `(?:\s*\([^)]+\))?\s*(?:Client Notes|Client Brief|Notes|Brief)` as a
prefix test: first with the optional parenthetical, then without. -/
def p1Tail (l : Str) : Bool :=
  (match l.dropWhile isJsWs with
   | '(' :: r =>
     let inner := r.takeWhile (· ≠ ')')
     inner ≠ [] &&
       (match r.drop inner.length with
        | ')' :: after => p1Lit (after.dropWhile isJsWs)
        | _ => false)
   | _ => false) ||
  p1Lit (l.dropWhile isJsWs)

/-- Lazy group growth for the first client pattern (`acc` is the group so
far; the shortest extension whose tail matches wins). -/
def p1Go (acc : Str) : Str → Option Str
  | [] => none
  | c :: cs =>
    if p1Class c then
      if p1Tail cs then some (acc ++ [c]) else p1Go (acc ++ [c]) cs
    else none

/-- `/^([A-Za-z0-9\s&\(\)\.]+?)(?:\s*\([^)]+\))?\s*(?:Client Notes|Client
Brief|Notes|Brief)/im` — group 1 of the first match. -/
def p1Match (content : Str) : Option Str :=
  scanLineStarts (fun l => p1Go [] l) true content

/-- `[A-Za-z0-9\s&\.]` — the fifth client-pattern's name class. -/
def p5Class (c : Char) : Bool :=
  ('A' ≤ c && c ≤ 'Z') || ('a' ≤ c && c ≤ 'z') || ('0' ≤ c && c ≤ '9') ||
    isJsWs c || c = '&' || c = '.'

/-- `(?:\s+Base Information|\s+Client Information)` as a prefix test. -/
def p5Tail (l : Str) : Bool :=
  let run := l.takeWhile isJsWs
  run ≠ [] &&
    (ciIsPrefixOf "Base Information".data (l.drop run.length) ||
      ciIsPrefixOf "Client Information".data (l.drop run.length))

def p5Go (acc : Str) : Str → Option Str
  | [] => none
  | c :: cs =>
    if p5Class c then
      if p5Tail cs then some (acc ++ [c]) else p5Go (acc ++ [c]) cs
    else none

/-- `/^([A-Z][A-Za-z0-9\s&\.]+?)(?:\s+Base Information|\s+Client
Information)/im`. -/
def p5Match (content : Str) : Option Str :=
  scanLineStarts
    (fun l =>
      match l with
      | c :: cs => if 'A' ≤ c ∧ c ≤ 'Z' then p5Go [c] cs else none
      | [] => none)
    true content

/-- `/^Notes for[\s:]+([^\n]+)/im`. -/
def p6Match (content : Str) : Option Str :=
  scanLineStarts (labelValueAt "Notes for".data) true content

/-- Strip `/\(.*?\)/g`-style delimited segments (used with `(`/`)` for
`cleanClientName`); the lazy body may not cross a line terminator. -/
def stripDelimGo (o e : Char) : Bool → Str → Str
  | _, [] => []
  | true, c :: cs => if c = e then stripDelimGo o e false cs else stripDelimGo o e true cs
  | false, c :: cs =>
    if c = o ∧ e ∈ cs.takeWhile (fun x => !isLineTerm x) then
      stripDelimGo o e true cs
    else c :: stripDelimGo o e false cs

/-- `/\s*[,-]\s*$/ → ''` (non-global): the one trailing comma or dash,
with surrounding whitespace, is removed. -/
def stripTrailingSep (l : Str) : Str :=
  let rev := l.reverse
  let t2 := rev.takeWhile isJsWs
  let rev2 := rev.drop t2.length
  match rev2 with
  | m :: rev3 =>
    if m = ',' ∨ m = '-' then (rev3.dropWhile isJsWs).reverse
    else l
  | [] => l

/-- `^[•\-*]\s*` → `''` (non-global). -/
def stripLeadingBullet (l : Str) : Str :=
  match l with
  | m :: rest =>
    if m = '•' ∨ m = '-' ∨ m = '*' then rest.dropWhile isJsWs else l
  | [] => l

/-- `cleanExtractedText`. -/
def cleanExtractedText (text : Str) : Str :=
  text
  |> collapseWsRuns
  |> List.filter (fun c => decide (c ∉ ['(', ')', '[', ']', '{', '}']))
  |> stripTrailingSep
  |> stripLeadingBullet
  |> jsTrim

/-- `parseWithPatternMatching`: ordered client-name patterns then ordered
industry patterns, first match wins per field. -/
def parseWithPatternMatching (content : Str) : Profile :=
  let clientMatch :=
    [p1Match content,
     scanAll (labelValueAt "Client".data) content,
     scanAll (labelValueAt "Customer".data) content,
     scanAll (labelValueAt "Account".data) content,
     p5Match content,
     p6Match content].findSome? id
  let industryMatch :=
    [scanAll (fun l =>
        [labelValueAt "Industry".data l, labelValueAt "Sector".data l,
         labelValueAt "Vertical".data l, labelValueAt "Business".data l,
         labelValueAt "Market".data l].findSome? id) content,
     scanAll (fun l =>
        [labelValueAt "Primary Industry".data l,
         labelValueAt "Primary Business".data l].findSome? id) content,
     scanAll (fun l =>
        if ciIsPrefixOf "operates in ".data l then
          let rest := l.drop 12
          let withThe :=
            if ciIsPrefixOf "the".data rest ∧ (rest.drop 3).takeWhile isJsWs ≠ [] then
              some ((rest.drop 3).dropWhile isJsWs)
            else none
          let grab := fun (r : Str) =>
            let g := r.takeWhile (fun c => !(c = '\n' || c = ','))
            if g ≠ [] then some g else none
          match withThe with
          | some r2 =>
            match grab r2 with
            | some g => some g
            | none => grab rest
          | none => grab rest
        else none) content].findSome? id
  let r := initializeParsedData
  let r := match clientMatch with
    | some m => { r with clientName := cleanExtractedText m }
    | none => r
  match industryMatch with
  | some m => { r with industry := cleanExtractedText m }
  | none => r

/-! ### Strategy 2: section detection -/

/-- `extractFromSection`: for client/industry sections, the first trimmed
line that is non-empty and holds no colon. -/
def extractFromSection (content : Str) (ty : Str) : Str :=
  let cleanedContent := jsTrim content
  if ty = "client".data ∨ ty = "industry".data then
    match (splitOnPred (· = '\n') cleanedContent).findSome?
        (fun line =>
          let cleaned := jsTrim line
          if cleaned ≠ [] ∧ ':' ∉ cleaned then some cleaned else none) with
    | some v => v
    | none => []
  else []

/-- `^[•\-*]\s*.+` or `^\d+\.\s*.+` — a list-item line. -/
def isItemLine (cleaned : Str) : Bool :=
  (match cleaned with
   | m :: rest => (m = '•' || m = '-' || m = '*') && rest.dropWhile isJsWs ≠ []
   | [] => false) ||
  (let ds := cleaned.takeWhile (fun c => '0' ≤ c && c ≤ '9')
   ds ≠ [] &&
     (match cleaned.drop ds.length with
      | '.' :: rest => rest.dropWhile isJsWs ≠ []
      | _ => false))

/-- `cleaned.replace(/^[•\-*\d.]\s*/, '')`: one leading marker character
(bullet, dash, asterisk, digit or dot) and the whitespace after it. -/
def stripItemMarker (cleaned : Str) : Str :=
  match cleaned with
  | m :: rest =>
    if m = '•' ∨ m = '-' ∨ m = '*' ∨ ('0' ≤ m ∧ m ≤ '9') ∨ m = '.' then
      rest.dropWhile isJsWs
    else cleaned
  | [] => []

/-- `extractListItems`: bullets/numbered items, comma lists, standalone
short lines; deduplicated in first-occurrence order. -/
def extractListItems (content : Str) : List Str :=
  let items := (splitOnPred (· = '\n') content).foldl
    (fun acc line =>
      let cleaned := jsTrim line
      if isItemLine cleaned then
        let item := jsTrim (stripItemMarker cleaned)
        if item ≠ [] then acc ++ [item] else acc
      else if ',' ∈ cleaned ∧ ':' ∉ cleaned then
        acc ++ ((splitOnPred (· = ',') cleaned).map jsTrim).filter (· ≠ [])
      else if cleaned ≠ [] ∧ ':' ∉ cleaned ∧ cleaned.length < 100 then
        acc ++ [cleaned]
      else acc)
    []
  jsDedup items

/-- The 26 `knownCompanies` of `extractCompetitors`. -/
def knownCompanies : List Str :=
  ["IBM".data, "Microsoft".data, "Google".data, "Amazon".data, "AWS".data,
   "Oracle".data, "Salesforce".data,
   "Electronic Arts".data, "EA".data, "Ubisoft".data, "Nintendo".data, "Sony".data,
   "Activision".data,
   "Pfizer".data, "Johnson & Johnson".data, "J&J".data, "Merck".data, "Roche".data,
   "Accenture".data, "Deloitte".data, "PwC".data, "EY".data, "KPMG".data,
   "DXC".data, "HCL".data, "TCS".data, "Wipro".data, "Infosys".data, "Cognizant".data]

/-- `\b<pat>\b` case-insensitive search (all the engine's patterns begin
and end with word characters). -/
def wordMatchCIGo (pat : Str) (prev : Option Char) : Str → Bool
  | [] => false
  | c :: cs =>
    (noWordBefore prev && ciIsPrefixOf pat (c :: cs) &&
      noWordAt ((c :: cs).drop pat.length)) ||
    wordMatchCIGo pat (some c) cs

def wordMatchCI (pat l : Str) : Bool := wordMatchCIGo pat none l

/-- The lookahead `(?=\n\s*[A-Z][a-z]+[\s:]|$)` of the competitor-section
pattern. -/
def compLookahead (s : Str) : Bool :=
  s.isEmpty ||
    (match s with
     | '\n' :: s1 =>
       (match s1.dropWhile isJsWs with
        | u :: s3 =>
          ('A' ≤ u && u ≤ 'Z') &&
            (let low := s3.takeWhile (fun c => 'a' ≤ c && c ≤ 'z')
             low ≠ [] &&
               (match s3.drop low.length with
                | d :: _ => isSepWsColon d
                | [] => false))
        | [] => false)
     | _ => false)

/-- Lazy `[^]+?` (at least one character) up to the first position where
the lookahead holds. -/
def lazyGroupUntil (look : Str → Bool) : Str → Option Str
  | [] => none
  | c :: cs =>
    if look cs then some [c] else (lazyGroupUntil look cs).map (c :: ·)

/-- Separator `[\s:]*`/`[\s:]+` followed by a lazy any-character group, as
in the competitor and tier patterns: the greedy separator backs up one
character when the group would otherwise be empty. -/
def sepThenLazyGroup (minSep : Nat) (look : Str → Bool) (rest : Str) : Option Str :=
  let run := rest.takeWhile isSepWsColon
  let after := rest.drop run.length
  if run.length < minSep then none
  else if after ≠ [] then lazyGroupUntil look after
  else if minSep + 1 ≤ run.length then (run.getLast?).map (fun c => [c])
  else none

/-- `/(?:Competitors?|Competition|Competitive Intelligence)[\s:]*([^]+?)
(?=\n\s*[A-Z][a-z]+[\s:]|$)/i`. -/
def competitorSectionAt (l : Str) : Option Str :=
  let afterLabel :=
    if ciIsPrefixOf "Competitor".data l then
      let r := l.drop 10
      some (if r.head? = some 's' ∨ r.head? = some 'S' then r.drop 1 else r)
    else if ciIsPrefixOf "Competition".data l then some (l.drop 11)
    else if ciIsPrefixOf "Competitive Intelligence".data l then some (l.drop 24)
    else none
  match afterLabel with
  | some rest => sepThenLazyGroup 0 compLookahead rest
  | none => none

/-- `extractCompetitors`: inside the competitor section, known company
names (word-bounded, case-insensitive) then short list items, in Set
insertion order. -/
def extractCompetitors (content : Str) : List Str :=
  match scanAll competitorSectionAt content with
  | none => []
  | some text =>
    let fromKnown := knownCompanies.filter (fun co => wordMatchCI co text)
    let listItems := (extractListItems text).filter (fun i => i.length < 50)
    jsDedup (fromKnown ++ listItems)

/-- `Tier\s*<digit>` as a prefix; returns the rest. -/
def tierLabelAt (digit : Char) (l : Str) : Option Str :=
  if ciIsPrefixOf "Tier".data l then
    match (l.drop 4).dropWhile isJsWs with
    | d :: rest => if d = digit then some rest else none
    | [] => none
  else none

/-- A case-insensitive literal as a prefix; returns the rest. -/
def litAt (lit : Str) (l : Str) : Option Str :=
  if ciIsPrefixOf lit l then some (l.drop lit.length) else none

/-- One tier pattern `(?:A|B|…)[\s:]+([^]+?)(?=X|Y|$)`: the first
alternative that matches, then separator and lazy group. -/
def tierPatternAt (alts : List (Str → Option Str)) (look : Str → Bool) (l : Str) :
    Option Str :=
  match alts.findSome? (fun alt => alt l) with
  | some rest => sepThenLazyGroup 1 look rest
  | none => none

/-- `(?=Tier|Secondary|$)` and friends — case-insensitive literal
lookaheads. -/
def litLookahead (lits : List Str) (s : Str) : Bool :=
  s.isEmpty || lits.any (fun lit => ciIsPrefixOf lit s)

/-- `extractSources`: the four tier patterns against the section text;
if none fires, all items are distributed over the tiers in quarters. -/
def extractSources (content : Str) : Sources :=
  let t1 := scanAll (tierPatternAt
    [tierLabelAt '1', litAt "Primary".data, litAt "Priority".data]
    (litLookahead ["Tier".data, "Secondary".data])) content
  let t2 := scanAll (tierPatternAt
    [tierLabelAt '2', litAt "Secondary".data]
    (litLookahead ["Tier".data, "Supplementary".data])) content
  let t3 := scanAll (tierPatternAt
    [tierLabelAt '3', litAt "Supplementary".data, litAt "Additional".data]
    (litLookahead ["Hand".data, "Manual".data])) content
  let th := scanAll (tierPatternAt
    [litAt "Hand Search".data, litAt "Manual".data, litAt "Special".data]
    (litLookahead [])) content
  let sources : Sources :=
    { tier1 := (t1.map extractListItems).getD [],
      tier2 := (t2.map extractListItems).getD [],
      tier3 := (t3.map extractListItems).getD [],
      handSearch := (th.map extractListItems).getD [] }
  if sources.flatLen = 0 then
    let allSources := extractListItems content
    let tierSize := (allSources.length + 3) / 4
    { tier1 := allSources.take tierSize,
      tier2 := (allSources.drop tierSize).take tierSize,
      tier3 := (allSources.drop (tierSize * 2)).take tierSize,
      handSearch := allSources.drop (tierSize * 3) }
  else sources

/-- `parseWithSectionDetection`. -/
def parseWithSectionDetection (st : DocStructure) : Profile :=
  st.sections.foldl
    (fun r sec =>
      if sec.type = "client".data then
        { r with clientName := extractFromSection sec.content "client".data }
      else if sec.type = "industry".data then
        { r with industry := extractFromSection sec.content "industry".data }
      else if sec.type = "competitors".data then
        { r with competitors := extractCompetitors sec.content }
      else if sec.type = "products".data then
        { r with games := extractListItems sec.content }
      else if sec.type = "excluded".data then
        { r with excludedTopics := extractListItems sec.content }
      else if sec.type = "sources".data then
        { r with sources := extractSources sec.content }
      else r)
    initializeParsedData

end ClientNotesParser

namespace ClientNotesParser

/-! ### Strategy 3: key-value extraction -/

/-- `[\s:–-]` — the key/value separator class (the third character is the
en dash U+2013). -/
def isSepKV (c : Char) : Bool := isJsWs c || c = ':' || c = '–' || c = '-'

/-- Separator-and-value tail of `^([A-Za-z\s]+?)[\s:–-]+(.+)$`: the
greedy separator run backs up just enough for `(.+)$` to take at least
one character and reach the end without a line terminator. -/
def kvSepValue (rest : Str) : Option Str :=
  let run := rest.takeWhile isSepKV
  let goodSuffix := (rest.reverse.takeWhile (fun c => !isLineTerm c)).length
  let jmax := min run.length (rest.length - 1)
  if 1 ≤ jmax ∧ rest.length - jmax ≤ goodSuffix then some (rest.drop jmax) else none

def kvClass1 (c : Char) : Bool :=
  ('A' ≤ c && c ≤ 'Z') || ('a' ≤ c && c ≤ 'z') || isJsWs c

/-- Lazy key growth for the key-value line pattern. -/
def kvGo (acc : Str) : Str → Option (Str × Str)
  | [] => none
  | c :: cs =>
    if kvClass1 c then
      match kvSepValue cs with
      | some v => some (acc ++ [c], v)
      | none => kvGo (acc ++ [c]) cs
    else none

/-- `line.match(/^([A-Za-z\s]+?)[\s:–-]+(.+)$/)` — `(lower-cased trimmed
key, trimmed value)`. -/
def kvLineMatch (line : Str) : Option (Str × Str) :=
  (kvGo [] line).map fun p => (jsTrim (lowerStr p.1), jsTrim p.2)

/-- `mapKeyToField`'s `keyMappings`, each with its field-path setter, in
insertion order; the first pattern fuzzy-matching the key above 0.7
wins. -/
def keyMappings : List (Str × (Str → Profile → Profile)) :=
  [("client".data, fun v r => { r with clientName := v }),
   ("customer".data, fun v r => { r with clientName := v }),
   ("account".data, fun v r => { r with clientName := v }),
   ("industry".data, fun v r => { r with industry := v }),
   ("sector".data, fun v r => { r with industry := v }),
   ("vertical".data, fun v r => { r with industry := v }),
   ("schedule".data, fun v r => { r with briefingInfo := { r.briefingInfo with schedule := v } }),
   ("audience".data, fun v r => { r with briefingInfo := { r.briefingInfo with audience := v } }),
   ("recipients".data, fun v r => { r with briefingInfo := { r.briefingInfo with audience := v } }),
   ("length".data, fun v r => { r with briefingInfo := { r.briefingInfo with length := v } }),
   ("format".data, fun v r => { r with briefingInfo := { r.briefingInfo with length := v } })]

def mapKeyToField (key value : Str) (r : Profile) : Profile :=
  match keyMappings.find? (fun km => decide (fuzzyMatch key km.1 > 7/10)) with
  | some km => km.2 value r
  | none => r

/-- `parseWithKeyValueExtraction`. -/
def parseWithKeyValueExtraction (content : Str) : Profile :=
  (splitOnPred (· = '\n') content).foldl
    (fun r line =>
      match kvLineMatch line with
      | some kv => mapKeyToField kv.1 kv.2 r
      | none => r)
    initializeParsedData

/-! ### Strategy 4: contextual analysis -/

/-- `detectClientType`: indicator hit-counts per client type, strict
improvement keeps the earliest maximum; `null` when every score is 0. -/
def detectClientType (content : Str) : Option Str :=
  let normalizedContent := lowerStr content
  let best := clientPatterns.foldl
    (fun (acc : Option Str × Nat) p =>
      let score := (p.2.indicators.filter (fun ind => containsSub ind normalizedContent)).length
      if score > acc.2 then (some p.1, score) else acc)
    (none, 0)
  if best.2 > 0 then best.1 else none

/-- `extractKnownEntities`: the known patterns found (word-bounded,
case-insensitive) in the lower-cased content, in pattern order. -/
def extractKnownEntities (content : Str) (patterns : List Str) : List Str :=
  jsDedup (patterns.filter (fun pat => wordMatchCI pat (lowerStr content)))

/-- `parseWithContextualAnalysis`. -/
def parseWithContextualAnalysis (content : Str) : Profile :=
  let r := initializeParsedData
  match detectClientType content with
  | none => r
  | some ty =>
    match clientPatterns.find? (fun p => p.1 = ty) with
    | none => r
    | some p =>
      let r := { r with competitors := extractKnownEntities content p.2.competitorPatterns }
      if r.industry = [] ∧ ty = "gaming".data then
        { r with industry := "Video Game Publishing".data }
      else if r.industry = [] ∧ ty = "technology".data then
        { r with industry := "Technology Services".data }
      else r

/-! ### Strategy 5: template matching -/

/-- `calculateTemplateMatch`: the fraction of markers found
(case-insensitively) in the content. -/
def calculateTemplateMatch (content : Str) (markers : List Str) : ℚ :=
  ((markers.filter (fun m => containsSub (lowerStr m) (lowerStr content))).length : ℚ) /
    markers.length

/-- The three template parsers are stubs returning an empty profile. -/
def parseStandardTemplate (_ : Str) : Profile := initializeParsedData

def parseBriefTemplate (_ : Str) : Profile := initializeParsedData

def parseDetailedTemplate (_ : Str) : Profile := initializeParsedData

/-- `parseWithTemplateMatching`: the first template whose marker score
exceeds 0.6 runs its parser. -/
def parseWithTemplateMatching (content : Str) : Profile :=
  if calculateTemplateMatch content
      ["Client Notes".data, "Base Information".data, "Competitive Intelligence".data] > 6/10 then
    parseStandardTemplate content
  else if calculateTemplateMatch content
      ["Client:".data, "Industry:".data, "Competitors:".data, "Sources:".data] > 6/10 then
    parseBriefTemplate content
  else if calculateTemplateMatch content
      ["Client Profile".data, "Market Analysis".data, "Strategic Focus".data] > 6/10 then
    parseDetailedTemplate content
  else initializeParsedData

/-! ### Merging -/

/-- `isBetterValue` on two arrays: the longer wins. -/
def isBetterList (newVal exist : List Str) : Bool := newVal.length > exist.length

/-- `isBetterValue` on two strings: longer, but under 100 characters. -/
def isBetterStr (newVal exist : Str) : Bool :=
  newVal.length > exist.length && newVal.length < 100

/-- `isBetterValue` on two objects: more `Object.keys`.  A sources object
always has the same four keys and a briefingInfo object the same three,
so between two values of the same shape this is never true. -/
def isBetterKeys (newKeys exist : List Str) : Bool := newKeys.length > exist.length

/-- One string field of `mergeResults`: an empty string is falsy, so a
non-empty new value replaces an empty or worse existing one. -/
def mergeStrField (exist newV : Str) : Str :=
  if newV ≠ [] ∧ (exist = [] ∨ isBetterStr newV exist) then newV else exist

/-- One list field of `mergeResults`: arrays are always truthy, so only
`isBetterValue` (strictly longer) replaces. -/
def mergeListField (exist newV : List Str) : List Str :=
  if isBetterList newV exist then newV else exist

/-- `mergeResults`, specialized to the fixed profile shape produced by
`initializeParsedData` (the only shape the strategies return). -/
def mergeResults (existing newData : Profile) : Profile :=
  { clientName := mergeStrField existing.clientName newData.clientName,
    industry := mergeStrField existing.industry newData.industry,
    games := mergeListField existing.games newData.games,
    executives := mergeListField existing.executives newData.executives,
    competitors := mergeListField existing.competitors newData.competitors,
    excludedTopics := mergeListField existing.excludedTopics newData.excludedTopics,
    sources :=
      if isBetterKeys (newData.sources.jsKeys) (existing.sources.jsKeys) then newData.sources
      else existing.sources,
    briefingInfo :=
      if isBetterKeys (newData.briefingInfo.jsKeys) (existing.briefingInfo.jsKeys) then
        newData.briefingInfo
      else existing.briefingInfo,
    contacts := mergeListField existing.contacts newData.contacts,
    expectedCompetitors :=
      match newData.expectedCompetitors, existing.expectedCompetitors with
      | none, e => e
      | some nv, none => some nv
      | some nv, some e => if isBetterList nv e then some nv else some e }

/-! ### Post-processing and confidence -/

/-- Remove all occurrences of a case-insensitive literal
(`/Brief/gi → ''`). -/
def removeSeqCIGo (pat : Str) : Nat → Str → Str
  | _, [] => []
  | n + 1, _ :: cs => removeSeqCIGo pat n cs
  | 0, c :: cs =>
    if pat ≠ [] ∧ ciIsPrefixOf pat (c :: cs) then
      removeSeqCIGo pat (pat.length - 1) cs
    else c :: removeSeqCIGo pat 0 cs

def removeSeqCI (pat l : Str) : Str := removeSeqCIGo pat 0 l

/-- `/Client Notes?/gi → ''`: the literal with a greedy optional final
`s`. -/
def removeClientNotesGo : Nat → Str → Str
  | _, [] => []
  | n + 1, _ :: cs => removeClientNotesGo n cs
  | 0, c :: cs =>
    if ciIsPrefixOf "Client Note".data (c :: cs) then
      let withS := ((c :: cs).drop 11).head? = some 's' ∨ ((c :: cs).drop 11).head? = some 'S'
      removeClientNotesGo ((if withS then 12 else 11) - 1) cs
    else c :: removeClientNotesGo 0 cs

/-- `cleanClientName`. -/
def cleanClientName (name : Str) : Str :=
  name
  |> stripDelimGo '(' ')' false
  |> removeClientNotesGo 0
  |> removeSeqCI "Brief".data
  |> collapseWsRuns
  |> jsTrim

/-- The `inferIndustry` keyword table, in insertion order, with the
capitalized industry names the source derives from the keys. -/
def inferenceTable : List (Str × List Str) :=
  [("Gaming".data, ["game".data, "entertainment".data, "interactive".data, "esports".data]),
   ("Technology".data, ["tech".data, "software".data, "cloud".data, "digital".data,
      "cyber".data]),
   ("Healthcare".data, ["health".data, "medical".data, "pharma".data, "bio".data,
      "clinical".data]),
   ("Finance".data, ["bank".data, "financial".data, "capital".data, "investment".data,
      "insurance".data]),
   ("Retail".data, ["retail".data, "store".data, "commerce".data, "shop".data,
      "consumer".data])]

/-- `inferIndustry`: first keyword contained in name+content wins;
`'Technology'` is the fallback. -/
def inferIndustry (clientName content : Str) : Str :=
  let combined := lowerStr (clientName ++ [' '] ++ content)
  match inferenceTable.findSome?
      (fun p => if p.2.any (fun k => containsSub k combined) then some p.1 else none) with
  | some ind => ind
  | none => "Technology".data

/-- `postProcess`: clean the client name, deduplicate every array field,
infer a missing industry when a client name is present. -/
def postProcess (data : Profile) (content : Str) : Profile :=
  let p := if data.clientName ≠ [] then
      { data with clientName := cleanClientName data.clientName }
    else data
  let p :=
    { p with
      games := jsDedup p.games
      executives := jsDedup p.executives
      competitors := jsDedup p.competitors
      excludedTopics := jsDedup p.excludedTopics
      contacts := jsDedup p.contacts
      expectedCompetitors := p.expectedCompetitors.map jsDedup }
  if p.industry = [] ∧ p.clientName ≠ [] then
    { p with industry := inferIndustry p.clientName content }
  else p

/-- `generateConfidenceDetails`: an entry per field scoring below 0.5. -/
def generateConfidenceDetails (scores : FieldScores) : List ConfDetail :=
  ([("clientName".data, scores.clientName), ("industry".data, scores.industry),
    ("competitors".data, scores.competitors), ("sources".data, scores.sources),
    ("excludedTopics".data, scores.excludedTopics)].filter
      (fun p => decide (p.2 < 1/2))).map
    fun p =>
      { field := p.1,
        issue := p.1 ++ " extraction confidence is low".data,
        suggestion := "Review and manually verify ".data ++ p.1 ++ " data".data }

/-- `calculateConfidence`: fixed per-field scores, weighted average with
weights summing to 1. -/
def calculateConfidence (data : Profile) : Confidence :=
  let scores : FieldScores :=
    { clientName := if data.clientName ≠ [] then 1 else 0,
      industry := if data.industry ≠ [] then 8/10 else 0,
      competitors := if data.competitors.length > 0 then 9/10 else 0,
      sources := if data.sources.flatLen > 0 then 8/10 else 0,
      excludedTopics := if data.excludedTopics.length > 0 then 7/10 else 0 }
  let totalScore := scores.clientName * (3/10) + scores.industry * (2/10) +
    scores.competitors * (2/10) + scores.sources * (2/10) + scores.excludedTopics * (1/10)
  let totalWeight : ℚ := 3/10 + 2/10 + 2/10 + 2/10 + 1/10
  { overall := totalScore / totalWeight,
    rest := some { fields := scores, details := generateConfidenceDetails scores } }

/-- `generateWarnings`. -/
def generateWarnings (confidenceThreshold : ℚ) (data : Profile) (confidence : Confidence)
    (validation : ValidationResult) : List Warning :=
  (if data.clientName = [] then
    [{ level := "error".data,
       message := "Client name could not be extracted".data,
       suggestion := "Ensure document contains client identification".data }]
  else []) ++
  (if confidence.overall < confidenceThreshold then
    [{ level := "warning".data,
       message := "Overall confidence (".data ++ numToStr (jsRound (confidence.overall * 100)) ++
         "%) is below threshold".data,
       suggestion := "Document may need manual review".data }]
  else []) ++
  (if data.competitors.length = 0 then
    [{ level := "info".data,
       message := "No competitors were identified".data,
       suggestion := "Add competitive intelligence section if needed".data }]
  else []) ++
  (if ¬ validation.isValid then
    validation.issues.map fun issue =>
      { level := issue.level, message := issue.message, suggestion := issue.suggestion }
  else [])

end ClientNotesParser

namespace ParsingValidator

/-- One validation rule. -/
structure VRule where
  field : Str
  required : Bool
  minLength : Option Nat
  minItems : Option Nat
deriving Repr, DecidableEq

/-- `this.rules.general`. -/
def generalRules : List VRule :=
  [{ field := "clientName".data, required := true, minLength := some 2, minItems := none },
   { field := "industry".data, required := false, minLength := some 3, minItems := none }]

/-- `this.rules.gaming`. -/
def gamingRules : List VRule :=
  [{ field := "games".data, required := true, minLength := none, minItems := some 1 },
   { field := "platforms".data, required := false, minLength := none, minItems := none }]

/-- `this.rules.technology`. -/
def technologyRules : List VRule :=
  [{ field := "services".data, required := false, minLength := none, minItems := none },
   { field := "technologies".data, required := false, minLength := none, minItems := none }]

/-- A dynamically-typed field value, as `getNestedValue` sees it. -/
inductive JsVal where
  | und : JsVal
  | str : Str → JsVal
  | arr : List Str → JsVal
deriving Repr, DecidableEq

def JsVal.truthy : JsVal → Bool
  | .und => false
  | .str s => s ≠ []
  | .arr _ => true

def JsVal.len : JsVal → Nat
  | .und => 0
  | .str s => s.length
  | .arr l => l.length

def JsVal.isArr : JsVal → Bool
  | .arr _ => true
  | _ => false

/-- `getNestedValue(parsedData, rule.field)` for the fields the rules
name; `platforms`, `services` and `technologies` are not profile keys and
read as undefined. -/
def getField (p : Profile) (f : Str) : JsVal :=
  if f = "clientName".data then .str p.clientName
  else if f = "industry".data then .str p.industry
  else if f = "games".data then .arr p.games
  else .und

/-- Issues of one rule. -/
def ruleIssues (p : Profile) (rule : VRule) : List Issue :=
  let value := getField p rule.field
  (if rule.required ∧ ¬ value.truthy then
    [{ field := rule.field, level := "error".data,
       message := "Required field '".data ++ rule.field ++ "' is missing".data,
       suggestion := "Ensure the document contains ".data ++ rule.field ++
         " information".data }]
  else []) ++
  (match rule.minLength with
   | some m =>
     if value.truthy ∧ value.len < m then
       [{ field := rule.field, level := "warning".data,
          message := "Field '".data ++ rule.field ++ "' seems too short".data,
          suggestion := "Verify ".data ++ rule.field ++ " is complete".data }]
     else []
   | none => []) ++
  (match rule.minItems with
   | some m =>
     if value.truthy ∧ value.isArr ∧ value.len < m then
       [{ field := rule.field, level := "warning".data,
          message := "Field '".data ++ rule.field ++ "' has fewer items than expected".data,
          suggestion := "Check if all ".data ++ rule.field ++ " were extracted".data }]
     else []
   | none => [])

def calculateValidationScore (issues : List Issue) : ℚ :=
  let errorCount := (issues.filter (fun i => i.level = "error".data)).length
  let warningCount := (issues.filter (fun i => i.level = "warning".data)).length
  max 0 (1 - errorCount * (2/10) - warningCount * (1/10))

/-- `ParsingValidator.validate`. -/
def validate (p : Profile) (_documentType : Str)
    (clientType : Option Str) : ValidationResult :=
  let applicableRules := generalRules ++
    (if clientType = some "gaming".data then gamingRules
     else if clientType = some "technology".data then technologyRules
     else [])
  let issues := applicableRules.flatMap (ruleIssues p)
  let issues := issues ++
    (if clientType = some "rackspace".data ∧ p.sources.flatLen = 0 then
      [{ field := "sources".data, level := "error".data,
         message := "Rackspace clients require source lists".data,
         suggestion := "Add Highlighted Sources section".data }]
    else [])
  { isValid := (issues.filter (fun i => i.level = "error".data)).length = 0,
    issues := issues,
    score := calculateValidationScore issues }

end ParsingValidator

namespace FallbackParser

/-! ### Fallback parser

Each fallback strategy receives the merged profile object (`primaryResult`)
and works on a shallow copy (`{...primaryResult}`).  Top-level writes land
only in the copy, but `competitors.push` (table extraction) and
`sources.tierN = …` (sentence analysis) mutate the arrays/objects the copy
*shares* with `primaryResult`.  The model threads the shared object
(`primary`) through the strategies and represents a copy as `FbCopy`:
value fields are snapshots, `competitorsOverride = none` means the copy's
`competitors` still aliases the shared array, and the copy's `sources`
always aliases the shared object.  `materializeFb` resolves a copy
against the current shared state. -/

structure FbCopy where
  clientName : Str
  industry : Str
  games : List Str
  competitorsOverride : Option (List Str)
  executives : List Str
  excludedTopics : List Str
  contacts : List Str
  briefingInfo : BriefingInfo
  expectedCompetitors : Option (List Str)
deriving Repr, DecidableEq

open ClientNotesParser in
def fbCopyOf (p : Profile) : FbCopy :=
  { clientName := p.clientName, industry := p.industry, games := p.games,
    competitorsOverride := none, executives := p.executives,
    excludedTopics := p.excludedTopics, contacts := p.contacts,
    briefingInfo := p.briefingInfo, expectedCompetitors := p.expectedCompetitors }

def materializeFb (c : FbCopy) (heap : Profile) : Profile :=
  { clientName := c.clientName, industry := c.industry, games := c.games,
    competitors := c.competitorsOverride.getD heap.competitors,
    excludedTopics := c.excludedTopics, sources := heap.sources,
    briefingInfo := c.briefingInfo, executives := c.executives,
    contacts := c.contacts, expectedCompetitors := c.expectedCompetitors }

/-- `calculateImprovement`, one string key: `!original[key] &&
updated[key]` adds 1. -/
def keyImpStr (orig upd : Str) : ℚ := if orig = [] ∧ upd ≠ [] then 1 else 0

/-- `calculateImprovement`, one array key: arrays are truthy, so only the
strictly-longer branch (+0.5) can fire. -/
def keyImpList (orig upd : List Str) : ℚ := if upd.length > orig.length then 1/2 else 0

/-- `calculateImprovement(original, updated)`: the per-key improvements
summed over `Object.keys(updated)` (nine keys, ten when
`expectedCompetitors` is present; the `sources` and `briefingInfo`
objects are truthy non-arrays and contribute nothing), divided by the key
count. -/
def calculateImprovement (original updated : Profile) : ℚ :=
  let total :=
    keyImpStr original.clientName updated.clientName +
    keyImpStr original.industry updated.industry +
    keyImpList original.games updated.games +
    keyImpList original.executives updated.executives +
    keyImpList original.competitors updated.competitors +
    keyImpList original.excludedTopics updated.excludedTopics +
    keyImpList original.contacts updated.contacts +
    (match updated.expectedCompetitors, original.expectedCompetitors with
     | some u, some o => keyImpList o u
     | some u, none => if u ≠ [] then 1 else 0
     | none, _ => 0)
  let fields : ℚ := 9 + (if updated.expectedCompetitors.isSome then 1 else 0)
  total / fields

/-- `mapTableValue` acting on `(copy.clientName, copy.industry, shared
competitors array)`: the first two writes are copy-local, the competitor
push mutates the shared array.  The comma-split values are trimmed but
not filtered for emptiness, as in the source. -/
def mapTableValue (key value : Str) (st : Str × Str × List Str) : Str × Str × List Str :=
  let normalizedKey := lowerStr key
  if containsSub "client".data normalizedKey ∨ containsSub "customer".data normalizedKey then
    (value, st.2.1, st.2.2)
  else if containsSub "industry".data normalizedKey ∨
      containsSub "sector".data normalizedKey then
    (st.1, value, st.2.2)
  else if containsSub "compet".data normalizedKey then
    (st.1, st.2.1, st.2.2 ++ (splitOnPred (· = ',') value).map jsTrim)
  else st

/-- `tryTableExtraction`: two-part `[:|\t]` splits feed `mapTableValue`;
the confidence is the improvement of the copy over the (already mutated)
shared profile. -/
def tryTableExtraction (content : Str) (primary : Profile) : Profile × FbCopy × ℚ :=
  let fin := (splitOnPred (· = '\n') content).foldl
    (fun st line =>
      if ':' ∈ line ∨ '|' ∈ line ∨ '\t' ∈ line then
        match (splitOnPred (fun c => c = ':' || c = '|' || c = '\t') line).map jsTrim with
        | [k, v] => mapTableValue k v st
        | _ => st
      else st)
    (primary.clientName, primary.industry, primary.competitors)
  let primary' := { primary with competitors := fin.2.2 }
  let copy : FbCopy := { fbCopyOf primary with clientName := fin.1, industry := fin.2.1 }
  (primary', copy, calculateImprovement primary' (materializeFb copy primary'))

def isUpperCh (c : Char) : Bool := 'A' ≤ c && c ≤ 'Z'

def isLowerCh (c : Char) : Bool := 'a' ≤ c && c ≤ 'z'

/-- `(?:\s+[A-Z][a-z]+)*` — greedy extension of a capitalized phrase. -/
def capExtendGo : Nat → Str → Str × Str
  | 0, l => ([], l)
  | fuel + 1, l =>
    let run := l.takeWhile isJsWs
    if run.isEmpty then ([], l)
    else
      match l.drop run.length with
      | u :: rest2 =>
        if isUpperCh u then
          let low := rest2.takeWhile isLowerCh
          if low.isEmpty then ([], l)
          else
            let next := capExtendGo fuel (rest2.drop low.length)
            (run ++ u :: low ++ next.1, next.2)
        else ([], l)
      | [] => ([], l)

/-- `[A-Z][a-z]+(?:\s+[A-Z][a-z]+)*` at one position. -/
def capMatchAt (l : Str) : Option (Str × Str) :=
  match l with
  | u :: rest =>
    if isUpperCh u then
      let low := rest.takeWhile isLowerCh
      if low.isEmpty then none
      else
        let ext := capExtendGo (rest.drop low.length).length (rest.drop low.length)
        some (u :: low ++ ext.1, ext.2)
    else none
  | [] => none

/-- All matches of `/\b[A-Z][a-z]+(?:\s+[A-Z][a-z]+)*/g`. -/
def capScanGo : Nat → Option Char → Str → List Str
  | 0, _, _ => []
  | _ + 1, _, [] => []
  | fuel + 1, prev, c :: cs =>
    if noWordBefore prev then
      match capMatchAt (c :: cs) with
      | some (m, rest) => m :: capScanGo fuel m.getLast? rest
      | none => capScanGo fuel (some c) cs
    else capScanGo fuel (some c) cs

def capitalizedMatches (l : Str) : List Str := capScanGo l.length none l

/-- Insertion-ordered frequency tally (a plain-object counter). -/
def tallyGo (acc : List (Str × Nat)) : List Str → List (Str × Nat)
  | [] => acc
  | x :: xs =>
    if acc.any (fun e => e.1 = x) then
      tallyGo (acc.map fun e => if e.1 = x then (e.1, e.2 + 1) else e) xs
    else tallyGo (acc ++ [(x, 1)]) xs

/-- `.sort((a, b) => b[1] - a[1])[0]` on a stable sort: the earliest entry
holding the maximal count. -/
def argmaxFirst : List (Str × Nat) → Option (Str × Nat)
  | [] => none
  | x :: xs => some (xs.foldl (fun a b => if b.2 > a.2 then b else a) x)

/-- `tryKeywordDensity`: the most frequent capitalized phrase (longer than
3 characters, not a demonstrative) becomes the copy's client name when it
occurs more than 3 times and the shared profile has none. -/
def tryKeywordDensity (content : Str) (primary : Profile) : Profile × FbCopy × ℚ :=
  let capitalizedWords := capitalizedMatches content
  let candidates := capitalizedWords.filter fun name =>
    name.length > 3 &&
      decide (name ∉ ["The".data, "This".data, "That".data, "These".data, "Those".data])
  let counts := tallyGo [] candidates
  let copy := fbCopyOf primary
  let copy := match argmaxFirst counts with
    | some top =>
      if top.2 > 3 ∧ copy.clientName = [] then { copy with clientName := top.1 } else copy
    | none => copy
  (primary, copy, calculateImprovement primary (materializeFb copy primary))

def isSentEnd (c : Char) : Bool := c = '.' || c = '!' || c = '?'

/-- All matches of `/[^.!?]+[.!?]+/g`: maximal terminator-free text plus
its terminator run; a trailing fragment with no terminator is no match. -/
def sentGo : Nat → Str → List Str
  | 0, _ => []
  | _ + 1, [] => []
  | fuel + 1, c :: cs =>
    if isSentEnd c then sentGo fuel cs
    else
      let seg := (c :: cs).takeWhile (fun x => !isSentEnd x)
      let rest := (c :: cs).drop seg.length
      let punct := rest.takeWhile isSentEnd
      if punct.isEmpty then []
      else (seg ++ punct) :: sentGo fuel (rest.drop punct.length)

def sentenceMatches (l : Str) : List Str := sentGo l.length l

/-- `(?:a|an|the)\s+` as a prefix test, alternatives in order. -/
def artThenWs (r2 : Str) : Bool :=
  (ciIsPrefixOf "a".data r2 && !((r2.drop 1).takeWhile isJsWs).isEmpty) ||
  (ciIsPrefixOf "an".data r2 && !((r2.drop 2).takeWhile isJsWs).isEmpty) ||
  (ciIsPrefixOf "the".data r2 && !((r2.drop 3).takeWhile isJsWs).isEmpty)

/-- `\bis\s+(?:a|an|the)\s+` at one position (after the boundary). -/
def isAAt (l : Str) : Bool :=
  ciIsPrefixOf "is".data l &&
    (let r := l.drop 2
     let run := r.takeWhile isJsWs
     !run.isEmpty && artThenWs (r.drop run.length))

def hasIsAGo (prev : Option Char) : Str → Bool
  | [] => false
  | c :: cs => (noWordBefore prev && isAAt (c :: cs)) || hasIsAGo (some c) cs

/-- `sentence.match(/\bis\s+(?:a|an|the)\s+/i)`. -/
def hasIsA (s : Str) : Bool := hasIsAGo none s

/-- Lazy `(.+?)` ending right before the first `.` or `,`
(`.` matches no line terminator). -/
def g2Lazy : Str → Option Str
  | [] => none
  | c :: cs =>
    if isLineTerm c then none
    else if cs.head? = some '.' ∨ cs.head? = some ',' then some [c]
    else (g2Lazy cs).map (c :: ·)

/-- `\s+(.+?)(?:\.|,)`: the greedy whitespace run backs up until the lazy
group finds a terminator. -/
def wsBacktrackG2Go (r : Str) : Nat → Option Str
  | 0 => none
  | j + 1 =>
    match g2Lazy (r.drop (j + 1)) with
    | some g => some g
    | none => wsBacktrackG2Go r j

def wsBacktrackG2 (r : Str) : Option Str :=
  wsBacktrackG2Go r (r.takeWhile isJsWs).length

/-- `(?:a|an|the)\s+(.+?)(?:\.|,)` — the article alternatives in order. -/
def defArtG2 (r3 : Str) : Option Str :=
  match (if ciIsPrefixOf "a".data r3 then wsBacktrackG2 (r3.drop 1) else none) with
  | some g => some g
  | none =>
    match (if ciIsPrefixOf "an".data r3 then wsBacktrackG2 (r3.drop 2) else none) with
    | some g => some g
    | none => if ciIsPrefixOf "the".data r3 then wsBacktrackG2 (r3.drop 3) else none

/-- `\s+is\s+(?:a|an|the)\s+(.+?)(?:\.|,)` as a prefix of `l`. -/
def defTail (l : Str) : Option Str :=
  let run := l.takeWhile isJsWs
  if run.isEmpty then none
  else
    let r := l.drop run.length
    if ciIsPrefixOf "is".data r then
      let r2 := r.drop 2
      let run2 := r2.takeWhile isJsWs
      if run2.isEmpty then none else defArtG2 (r2.drop run2.length)
    else none

/-- Lazy growth of group 1 of the definition pattern. -/
def defGo (acc : Str) : Str → Option (Str × Str)
  | [] => none
  | c :: cs =>
    if isLineTerm c then none
    else
      match defTail cs with
      | some g2 => some (acc ++ [c], g2)
      | none => defGo (acc ++ [c]) cs

/-- `sentence.match(/^(.+?)\s+is\s+(?:a|an|the)\s+(.+?)(?:\.|,)/i)` —
groups 1 and 2. -/
def defMatch (sentence : Str) : Option (Str × Str) := defGo [] sentence

/-- `(\w+)\s+(?:company|corporation)` at one position. -/
def industryFromDefAt (l : Str) : Option Str :=
  let w := l.takeWhile isWordChar
  if w.isEmpty then none
  else
    let r := l.drop w.length
    let run := r.takeWhile isJsWs
    if !run.isEmpty ∧ (ciIsPrefixOf "company".data (r.drop run.length) ∨
        ciIsPrefixOf "corporation".data (r.drop run.length)) then
      some w
    else none

def industryFromDef (definition : Str) : Option Str :=
  ClientNotesParser.scanAll industryFromDefAt definition

/-- `extractFromDefinition`: copy-local writes to `clientName` and
`industry`. -/
def extractFromDefinition (sentence : Str) (copy : FbCopy) : FbCopy :=
  match defMatch sentence with
  | none => copy
  | some g =>
    if copy.clientName = [] then
      let potentialName := jsTrim g.1
      let definition := jsTrim g.2
      if (match potentialName with
          | c :: _ => isUpperCh c
          | [] => false) && decide (potentialName.length < 50) then
        let copy := { copy with clientName := potentialName }
        if containsSubCI "company".data definition ∨
            containsSubCI "corporation".data definition ∨
            containsSubCI "organization".data definition then
          match industryFromDef definition with
          | some ind => if copy.industry = [] then { copy with industry := ind } else copy
          | none => copy
        else copy
      else copy
    else copy

/-- One match of `/[•\-*]\s*(.+)/` at a position: marker, greedy
whitespace (backed up so the group gets a non-terminator), group to the
line's end.  Returns the group and the rest of the text. -/
def bulletItemAt (l : Str) : Option (Str × Str) :=
  match l with
  | m :: rest =>
    if m = '•' ∨ m = '-' ∨ m = '*' then
      let run := rest.takeWhile isJsWs
      let after := rest.drop run.length
      if after ≠ [] then
        let grp := after.takeWhile (fun c => !isLineTerm c)
        some (grp, after.drop grp.length)
      else
        let trailLt := (run.reverse.takeWhile isLineTerm).length
        if trailLt < run.length then
          let j := run.length - 1 - trailLt
          let grp := (rest.drop j).takeWhile (fun c => !isLineTerm c)
          some (grp, (rest.drop j).drop grp.length)
        else none
    else none
  | [] => none

/-- All groups of `/[•\-*]\s*(.+)/g`. -/
def bulletScanGo : Nat → Str → List Str
  | 0, _ => []
  | _ + 1, [] => []
  | fuel + 1, c :: cs =>
    match bulletItemAt (c :: cs) with
    | some (grp, rest) => grp :: bulletScanGo fuel rest
    | none => bulletScanGo fuel cs

/-- `split('\n\n')[0]`. -/
def takeUntilSeq (sep l : Str) : Str :=
  match findSub sep l with
  | some i => l.take i
  | none => l

/-- The sentence-analysis working state: the copy plus the shared sources
object. -/
structure SentState where
  copy : FbCopy
  sources : Sources
deriving Repr, DecidableEq

/-- `extractFollowingList`: list items after a cue sentence go to the
copy's `competitors` (rebound) or `games`, or into the *shared* sources
object. -/
def extractFollowingList (sentence fullContent : Str) (primary : Profile)
    (st : SentState) : SentState :=
  match findSub sentence fullContent with
  | none => st
  | some index =>
    let afterSentence := fullContent.drop (index + sentence.length)
    let nextParagraph := takeUntilSeq "\n\n".data afterSentence
    let listItems := bulletScanGo nextParagraph.length nextParagraph
    if listItems ≠ [] then
      let items := listItems.map jsTrim
      let curComp := st.copy.competitorsOverride.getD primary.competitors
      if (containsSubCI "competitor".data sentence ∨
          containsSubCI "compet".data sentence) ∧ curComp.length = 0 then
        { st with copy := { st.copy with competitorsOverride := some items } }
      else if (containsSubCI "product".data sentence ∨
          containsSubCI "service".data sentence ∨
          containsSubCI "game".data sentence) ∧ st.copy.games.length = 0 then
        { st with copy := { st.copy with games := items } }
      else if (containsSubCI "source".data sentence ∨
          containsSubCI "publication".data sentence) ∧ st.sources.flatLen = 0 then
        let cut := (items.length + 2) / 3
        { st with sources :=
            { st.sources with tier1 := items.take cut, tier2 := items.drop cut } }
      else st
    else st

/-- `trySentenceAnalysis`. -/
def trySentenceAnalysis (content : Str) (primary : Profile) : Profile × FbCopy × ℚ :=
  let fin := (sentenceMatches content).foldl
    (fun (st : SentState) sentence =>
      let st := if hasIsA sentence then
          { st with copy := extractFromDefinition sentence st.copy }
        else st
      if containsSubCI "include".data sentence ∨ containsSubCI "such as".data sentence ∨
          containsSubCI "follow".data sentence then
        extractFollowingList sentence content primary st
      else st)
    { copy := fbCopyOf primary, sources := primary.sources }
  let primary' := { primary with sources := fin.sources }
  (primary', fin.copy, calculateImprovement primary' (materializeFb fin.copy primary'))

/-- `tryPatternLearning`: a placeholder returning the untouched copy with
a 0.8-discounted improvement. -/
def tryPatternLearning (_content : Str) (primary : Profile) : Profile × FbCopy × ℚ :=
  let copy := fbCopyOf primary
  (primary, copy, calculateImprovement primary (materializeFb copy primary) * (8/10))

/-- `FallbackParser.parse`: the four strategies run in order against the
shared profile object; the best strict improvement is kept (ties keep the
original, which aliases the shared profile).  Returns the shared profile
after all mutations, the best result materialized against it, and the
best confidence. -/
def fbParse (content : Str) (primaryIn : Profile) : Profile × Profile × ℚ :=
  let s1 := tryTableExtraction content primaryIn
  let b1 : Option FbCopy × ℚ := if s1.2.2 > 0 then (some s1.2.1, s1.2.2) else (none, 0)
  let s2 := tryKeywordDensity content s1.1
  let b2 := if s2.2.2 > b1.2 then (some s2.2.1, s2.2.2) else b1
  let s3 := trySentenceAnalysis content s2.1
  let b3 := if s3.2.2 > b2.2 then (some s3.2.1, s3.2.2) else b2
  let s4 := tryPatternLearning content s3.1
  let b4 := if s4.2.2 > b3.2 then (some s4.2.1, s4.2.2) else b3
  let primaryFinal := s4.1
  let dataOut := match b4.1 with
    | some c => materializeFb c primaryFinal
    | none => primaryFinal
  (primaryFinal, dataOut, b4.2)

end FallbackParser

namespace ParsingCache

structure CacheEntry where
  result : ParseResult
  metadata : Metadata
  timestamp : Nat
  accessCount : Nat
deriving Repr, DecidableEq

structure Extraction where
  pattern : Str
  value : Str
  count : Nat
  firstSeen : Nat
  lastSeen : Nat
deriving Repr, DecidableEq

/-- JavaScript 32-bit coercion (`hash & hash`, `<<`). -/
def toInt32 (n : Int) : Int := ((n + 2 ^ 31) % 2 ^ 32) - 2 ^ 31

/-- One step of `generateHash`: `hash = ((hash << 5) - hash) + char;
hash = hash & hash`. -/
def hashStep (h : Int) (c : Char) : Int := toInt32 (toInt32 (h * 32) - h + c.toNat)

/-- `generateHash` (the cache key; `toString(36)` is injective on 32-bit
integers, so keying by the integer is equivalent). -/
def generateHash (content : Str) : Int := content.foldl hashStep 0

/-- `checkCache` + `isCacheValid`: an entry for the hash is returned when
younger than 24 hours; the stored confidence is not consulted. -/
def checkCache (cache : List (Int × CacheEntry)) (now : Nat) (content : Str) :
    Option ParseResult :=
  match cache.find? (fun e => e.1 = generateHash content) with
  | some e => if ((now : Int) - e.2.timestamp) < 86400000 then some e.2.result else none
  | none => none

/-- `Map.set`: update in place when the key exists, else append. -/
def setEntry (k : Int) (v : CacheEntry) (cache : List (Int × CacheEntry)) :
    List (Int × CacheEntry) :=
  if cache.any (fun e => e.1 = k) then
    cache.map fun e => if e.1 = k then (k, v) else e
  else cache ++ [(k, v)]

/-- Stable ascending insertion by timestamp. -/
def insertByTs (x : Int × CacheEntry) : List (Int × CacheEntry) → List (Int × CacheEntry)
  | [] => [x]
  | y :: ys => if x.2.timestamp < y.2.timestamp then x :: y :: ys else y :: insertByTs x ys

def sortByTs (l : List (Int × CacheEntry)) : List (Int × CacheEntry) :=
  l.foldl (fun acc x => insertByTs x acc) []

/-- `evictOldest`: the `Math.floor(100 * 0.1) = 10` oldest keys are
deleted. -/
def evictOldest (cache : List (Int × CacheEntry)) : List (Int × CacheEntry) :=
  let toRemove := ((sortByTs cache).take 10).map (fun e => e.1)
  cache.filter fun e => decide (e.1 ∉ toRemove)

/-- `ParsingCache.store`. -/
def store (cache : List (Int × CacheEntry)) (now : Nat) (content : Str)
    (result : ParseResult) (metadata : Metadata) : List (Int × CacheEntry) :=
  let c2 := setEntry (generateHash content)
    { result := result, metadata := metadata, timestamp := now, accessCount := 0 } cache
  if c2.length > 100 then evictOldest c2 else c2

/-- Stable descending insertion by count. -/
def insertByCount (x : Extraction) : List Extraction → List Extraction
  | [] => [x]
  | y :: ys => if y.count < x.count then x :: y :: ys else y :: insertByCount x ys

def sortByCountDesc (l : List Extraction) : List Extraction :=
  l.foldl (fun acc x => insertByCount x acc) []

/-- `learnPattern`: bump or append the (field, pattern) tally and keep the
field's list sorted by count, descending, stably. -/
def learnPattern (m : List (Str × List Extraction)) (now : Nat) (field pat value : Str) :
    List (Str × List Extraction) :=
  let cur := ((m.find? (fun e => e.1 = field)).map (fun e => e.2)).getD []
  let cur2 :=
    if cur.any (fun e => e.pattern = pat) then
      cur.map fun e =>
        if e.pattern = pat then { e with count := e.count + 1, lastSeen := now } else e
    else
      cur ++ [{ pattern := pat
                value := value
                count := 1
                firstSeen := now
                lastSeen := now }]
  let sorted := sortByCountDesc cur2
  if m.any (fun e => e.1 = field) then
    m.map fun e => if e.1 = field then (field, sorted) else e
  else m ++ [(field, sorted)]

end ParsingCache

namespace ClientNotesParser

/-- `/([A-Za-z\s]+)[:–-]\s*$/` against the 50-character context before a
found value: the label ending the context. -/
def ctxPattern (context : Str) : Option Str :=
  let rev := context.reverse
  let t := rev.takeWhile isJsWs
  match rev.drop t.length with
  | sep :: rev2 =>
    if sep = ':' ∨ sep = '–' ∨ sep = '-' then
      let grp := (rev2.takeWhile kvClass1).reverse
      if grp ≠ [] then some (jsTrim grp) else none
    else none
  | [] => none

/-- `findPatternForValue`: the value must occur at a positive index; the
label pattern is read off the preceding 50 characters. -/
def findPatternForValue (content value : Str) : Option Str :=
  match findSub value content with
  | some index =>
    if index > 0 then ctxPattern ((content.take index).drop (index - 50)) else none
  | none => none

/-- `learnFromExtraction`: of the profile's entries only the string fields
(`clientName`, `industry`) can produce a pattern — `findPatternForValue`
returns null for arrays, and objects fail the type test. -/
def learnFromExtraction (m : List (Str × List ParsingCache.Extraction)) (now : Nat)
    (p : Profile) (content : Str) : List (Str × List ParsingCache.Extraction) :=
  let m := if p.clientName ≠ [] then
      match findPatternForValue content p.clientName with
      | some pat => ParsingCache.learnPattern m now "clientName".data pat p.clientName
      | none => m
    else m
  if p.industry ≠ [] then
    match findPatternForValue content p.industry with
    | some pat => ParsingCache.learnPattern m now "industry".data pat p.industry
    | none => m
  else m

/-- `detectClientFromFilename`: the first client-profile key contained in
the lower-cased file name. -/
def detectClientFromFilename (filename : Str) : Option Str :=
  (clientProfiles.find? (fun cp => containsSub cp.1 (lowerStr filename))).map (fun cp => cp.1)

/-- `applyClientProfile`: the industry default and, when the profile has
custom competitor patterns, the extra `expectedCompetitors` key. -/
def applyClientProfile (p : Profile) (ct : Str) : Profile :=
  match clientProfiles.find? (fun cp => cp.1 = ct) with
  | none => p
  | some cp =>
    let p := if cp.2.industryDefault ≠ [] then { p with industry := cp.2.industryDefault }
      else p
    match cp.2.customCompetitors with
    | some comps => { p with expectedCompetitors := some comps }
    | none => p

/-- JavaScript `>` between the fallback result's `{overall: …}` object
and a number: always false (`ToPrimitive` → `"[object Object]"` → `NaN`).
The first argument is the object's `overall` member, recorded so the
comparison mirrors `fallbackResult.confidence > confidence.overall`. -/
def jsFbObjGtNum (_overall : ℚ) (_rhs : ℚ) : Bool := false

/-- The engine's constructor options (defaults of the source). -/
structure Options where
  enableFuzzyMatching : Bool
  confidenceThreshold : ℚ
  enableMLFeatures : Bool
  enableCaching : Bool
  clientType : Option Str
  customPatterns : List (Str × List Str)
deriving Repr, DecidableEq

def defaultOptions : Options :=
  { enableFuzzyMatching := true, confidenceThreshold := 6/10, enableMLFeatures := true,
    enableCaching := true, clientType := none, customPatterns := [] }

/-- The engine's mutable state: the options object (whose `clientType`
`parse` may overwrite), the merged field variations, and the two
cache/learning stores. -/
structure EngineState where
  options : Options
  fieldVariations : List (Str × List Str)
  documentCache : List (Int × ParsingCache.CacheEntry)
  successfulExtractions : List (Str × List ParsingCache.Extraction)
deriving Repr, DecidableEq

/-- The constructor's custom-pattern merge: extra synonyms are appended to
existing variation lists; unknown fields are ignored. -/
def mergeCustomPatterns (base custom : List (Str × List Str)) : List (Str × List Str) :=
  base.map fun fv =>
    match custom.find? (fun c => c.1 = fv.1) with
    | some c => (fv.1, fv.2 ++ c.2)
    | none => fv

def mkEngine (opts : Options) : EngineState :=
  { options := opts,
    fieldVariations := mergeCustomPatterns defaultFieldVariations opts.customPatterns,
    documentCache := [], successfulExtractions := [] }

def defaultEngine : EngineState := mkEngine defaultOptions

/-- The merged profile after preprocessing, structure analysis, client
profile application and the five strategies — the state of `parsedData`
just before `postProcess`. -/
def mergedProfile (_st : EngineState) (clientType : Option Str) (normalizedContent : Str)
    (documentStructure : DocStructure) : Profile :=
  let parsedData := initializeParsedData
  let parsedData := match clientType with
    | some ct =>
      if (clientProfiles.find? (fun cp => cp.1 = ct)).isSome then
        applyClientProfile parsedData ct
      else parsedData
    | none => parsedData
  let parsedData := mergeResults parsedData (parseWithPatternMatching normalizedContent)
  let parsedData := mergeResults parsedData (parseWithSectionDetection documentStructure)
  let parsedData := mergeResults parsedData (parseWithKeyValueExtraction normalizedContent)
  let parsedData := mergeResults parsedData (parseWithContextualAnalysis normalizedContent)
  mergeResults parsedData (parseWithTemplateMatching normalizedContent)

/-- The clientType resolution at the top of `parse`'s main path: an
explicitly configured type wins; otherwise the file name is consulted. -/
def detectedClientType (opts : Options) (metadata : Metadata) : Option Str :=
  match opts.clientType, metadata.fileName with
  | none, some f => detectClientFromFilename f
  | ct, _ => ct

/-- The middle of `parse`: merge, post-process, confidence, the fallback
phase, validation, warnings — producing the final profile, confidence and
result object.  `st` is the engine state *after* the clientType write. -/
def parseOutcome (st : EngineState) (normalizedContent : Str)
    (documentStructure : DocStructure) (clientType : Option Str) (metadata : Metadata) :
    Profile × Confidence × ParseResult :=
  let parsedData := mergedProfile st clientType normalizedContent documentStructure
  let parsedData := postProcess parsedData normalizedContent
  let confidence := calculateConfidence parsedData
  let afterFb :=
    if confidence.overall < st.options.confidenceThreshold then
      let fb := FallbackParser.fbParse normalizedContent parsedData
      if jsFbObjGtNum fb.2.2 confidence.overall then
        (fb.2.1, { overall := fb.2.2, rest := none : Confidence })
      else (fb.1, confidence)
    else (parsedData, confidence)
  let parsedData := afterFb.1
  let confidence := afterFb.2
  let validation := ParsingValidator.validate parsedData documentStructure.type clientType
  let result : ParseResult :=
    { data := parsedData, confidence := confidence,
      documentType := documentStructure.type, validation := validation,
      warnings := generateWarnings st.options.confidenceThreshold parsedData confidence
        validation,
      metadata := metadata }
  (parsedData, confidence, result)

/-- The tail of `parse`: the conditional cache store and learning-store
update. -/
def updatedCaches (st : EngineState) (now : Nat) (normalizedContent : Str)
    (parsedData : Profile) (confidence : Confidence) (result : ParseResult)
    (metadata : Metadata) : EngineState :=
  let st := if confidence.overall > 8/10 ∧ st.options.enableCaching then
      { st with documentCache :=
          ParsingCache.store st.documentCache now normalizedContent result metadata }
    else st
  if confidence.overall > 7/10 then
    { st with successfulExtractions :=
        learnFromExtraction st.successfulExtractions now parsedData normalizedContent }
  else st

/-- `ClientNotesParser.parse`, with the wall clock (`new Date()`) passed
explicitly.  Returns the engine state after the call and the parse
result.  The strategies cannot throw in this model, so the source's
per-strategy `try/catch` is vacuous. -/
def parse (st : EngineState) (now : Nat) (content : Str) (metadata : Metadata) :
    EngineState × ParseResult :=
  let preprocessedContent := DocumentPreprocessor.process content
  let normalizedContent := normalizeContent preprocessedContent
  let documentStructure := analyzeDocumentStructure st.fieldVariations normalizedContent
  let cachedResult := ParsingCache.checkCache st.documentCache now normalizedContent
  let hit := match cachedResult with
    | some r => if jsObjGtNum r.confidence (9/10) then some r else none
    | none => none
  match hit with
  | some r => (st, r)
  | none =>
    let clientType := detectedClientType st.options metadata
    let st := { st with options := { st.options with clientType := clientType } }
    let o := parseOutcome st normalizedContent documentStructure clientType metadata
    (updatedCaches st now normalizedContent o.1 o.2.1 o.2.2 metadata, o.2.2)
end ClientNotesParser

namespace StructureAgnosticParser

/-! ### StructureAgnosticParser (the section classifier of the
structure-agnostic module) -/

end StructureAgnosticParser

/-! ## Theorems -/

theorem onlySpaceWs_no_mem {u : List Char} {c : Char} (h : onlySpaceWs u)
    (hws : isJsWs c = true) (hc : c ≠ ' ') : c ∉ u :=
  fun hm => hc (h c hm hws)

theorem onlySpaceWs_tail {u : List Char} {c : Char} (h : onlySpaceWs (c :: u)) :
    onlySpaceWs u := fun d hd => h d (List.mem_cons_of_mem c hd)

namespace ClientNotesParser

theorem collapseWsGo_head_not_ws (u : List Char) :
    ∀ c, (collapseWsGo true u).head? = some c → isJsWs c = false := by
  induction u with
  | nil => intro c hc; simp [collapseWsGo] at hc
  | cons a as ih =>
    intro c hc
    by_cases ha : isJsWs a = true
    · rw [collapseWsGo] at hc
      simp only [ha, if_true] at hc
      exact ih c hc
    · rw [collapseWsGo] at hc
      simp only [ha] at hc
      simp only [Bool.false_eq_true, if_false, List.head?_cons, Option.some.injEq] at hc
      subst hc
      simpa using ha

theorem collapseWsGo_onlySpaceWs (u : List Char) :
    ∀ b, onlySpaceWs (collapseWsGo b u) := by
  induction u with
  | nil => intro b; intro c hc; simp [collapseWsGo] at hc
  | cons a as ih =>
    intro b c hc hws
    by_cases ha : isJsWs a = true
    · rw [collapseWsGo] at hc
      simp only [ha, if_true] at hc
      cases b with
      | true => exact ih true c hc hws
      | false =>
        rcases List.mem_cons.mp hc with h1 | h1
        · exact h1
        · exact ih true c h1 hws
    · rw [collapseWsGo] at hc
      simp only [ha, Bool.false_eq_true, if_false] at hc
      rcases List.mem_cons.mp hc with h1 | h1
      · subst h1; exact absurd hws (by simpa using ha)
      · exact ih false c h1 hws

theorem collapseWsGo_noWsPair (u : List Char) :
    ∀ b, noWsPair (collapseWsGo b u) := by
  induction u with
  | nil => intro b; simp [collapseWsGo, noWsPair]
  | cons a as ih =>
    intro b
    by_cases ha : isJsWs a = true
    · rw [collapseWsGo]
      simp only [ha, if_true]
      cases b with
      | true => exact ih true
      | false =>
        simp only [Bool.false_eq_true, if_false]
        rw [noWsPair, List.chain'_cons']
        refine ⟨?_, ih true⟩
        intro d hd
        intro hpair
        have := collapseWsGo_head_not_ws as d hd
        rw [this] at hpair
        exact absurd hpair.2 (by simp)
    · rw [collapseWsGo]
      simp only [ha, Bool.false_eq_true, if_false]
      rw [noWsPair, List.chain'_cons']
      refine ⟨?_, ih false⟩
      intro d hd hpair
      exact absurd hpair.1 (by simpa using ha)

theorem collapseWsGo_false_of_head_not_ws (u : List Char)
    (h : ∀ c, u.head? = some c → isJsWs c = false) :
    collapseWsGo true u = collapseWsGo false u := by
  cases u with
  | nil => rfl
  | cons a as =>
    have ha := h a (by simp)
    rw [collapseWsGo, collapseWsGo]
    simp [ha]

theorem collapseWsGo_eq_self {u : List Char} (h1 : onlySpaceWs u) (h2 : noWsPair u) :
    collapseWsGo false u = u := by
  induction u with
  | nil => rfl
  | cons a as ih =>
    by_cases ha : isJsWs a = true
    · have haSp : a = ' ' := h1 a (by simp) ha
      rw [collapseWsGo]
      simp only [ha, if_true]
      have hhead : ∀ c, as.head? = some c → isJsWs c = false := by
        intro c hc
        rw [noWsPair, List.chain'_cons'] at h2
        by_contra hcontra
        exact h2.1 c hc ⟨ha, by simpa using hcontra⟩
      rw [collapseWsGo_false_of_head_not_ws as hhead,
        ih (onlySpaceWs_tail h1) h2.tail, haSp]
      simp
    · rw [collapseWsGo]
      simp only [ha, Bool.false_eq_true, if_false]
      rw [ih (onlySpaceWs_tail h1) h2.tail]

theorem noNewline_of_onlySpaceWs {u : List Char} (h : onlySpaceWs u) : '\n' ∉ u :=
  onlySpaceWs_no_mem h (by decide) (by decide)

theorem collapseBlankGo_eq_self {u : List Char} (h : '\n' ∉ u) :
    collapseBlankGo 0 u = u := by
  induction u with
  | nil => rfl
  | cons a as ih =>
    have ha : ¬ a = '\n' := fun hc => h (hc ▸ List.mem_cons_self a as)
    rw [collapseBlankGo]
    simp only [ha, if_false]
    rw [ih (fun hm => h (List.mem_cons_of_mem a hm))]

theorem fixDoubleQuotes_eq_self (u : List Char) : fixDoubleQuotes u = u := by
  rw [fixDoubleQuotes]
  conv_rhs => rw [← List.map_id u]
  refine List.map_congr_left ?_
  intro c _
  by_cases h : c = '"' <;> simp [h]

theorem fixSingleQuotes_eq_self (u : List Char) : fixSingleQuotes u = u := by
  rw [fixSingleQuotes]
  conv_rhs => rw [← List.map_id u]
  refine List.map_congr_left ?_
  intro c _
  by_cases h : c = '\'' <;> simp [h]

theorem bulletGo_false_eq_self {u : List Char} (h : '\n' ∉ u) :
    bulletGo 0 false u = u := by
  induction u with
  | nil => rfl
  | cons a as ih =>
    have ha : ¬ a = '\n' := fun hc => h (hc ▸ List.mem_cons_self a as)
    rw [bulletGo]
    simp only [false_and, if_false]
    norm_num [ha]
    rw [ih (fun hm => h (List.mem_cons_of_mem a hm))]

theorem bulletGo_skip : ∀ (n : Nat) (st : Bool) (v : List Char),
    bulletGo n st v = bulletGo 0 st (v.drop n) := by
  intro n
  induction n with
  | zero => intro st v; simp
  | succ m ih =>
    intro st v
    cases v with
    | nil => simp [bulletGo]
    | cons c cs => rw [bulletGo, ih, List.drop_succ_cons]

theorem drop_length_takeWhile (p : Char → Bool) :
    ∀ l : List Char, l.drop (l.takeWhile p).length = l.dropWhile p := by
  intro l
  induction l with
  | nil => rfl
  | cons a as ih =>
    by_cases h : p a
    · rw [List.takeWhile_cons_of_pos h, List.dropWhile_cons_of_pos h,
        List.length_cons, List.drop_succ_cons, ih]
    · rw [List.takeWhile_cons_of_neg h, List.dropWhile_cons_of_neg h]
      simp

theorem head_dropWhile_not (p : Char → Bool) :
    ∀ (l : List Char) (d : Char), (l.dropWhile p).head? = some d → p d = false := by
  intro l
  induction l with
  | nil => intro d hd; simp [List.dropWhile] at hd
  | cons a as ih =>
    intro d hd
    by_cases ha : p a
    · rw [List.dropWhile_cons_of_pos ha] at hd
      exact ih d hd
    · rw [List.dropWhile_cons_of_neg ha] at hd
      simp only [List.head?_cons, Option.some.injEq] at hd
      subst hd
      simpa using ha

theorem takeWhile_eq_nil_of_head {v : List Char} (p : Char → Bool)
    (h : ∀ d, v.head? = some d → p d = false) : v.takeWhile p = [] := by
  cases v with
  | nil => rfl
  | cons a as =>
    have := h a (by simp)
    simp [List.takeWhile_cons, this]

theorem bulletGo_eq_self {u : List Char} (h1 : onlySpaceWs u) (h2 : noWsPair u)
    (h3 : bulletNormal u) : bulletGo 0 true u = u := by
  cases u with
  | nil => rfl
  | cons c cs =>
    by_cases hm : c = '-' ∨ c = '•' ∨ c = '*'
    · have hc : c = '•' := by
        rcases hm with h | h | h
        · exact absurd (by simp [h] : (c :: cs).head? = some '-') h3.1
        · exact h
        · exact absurd (by simp [h] : (c :: cs).head? = some '*') h3.2.1
      have hcs : cs.head? = some ' ' := by
        have := h3.2.2 (by simp [hc])
        simpa using this
      obtain ⟨v, rfl⟩ : ∃ v, cs = ' ' :: v := by
        cases cs with
        | nil => simp at hcs
        | cons a as =>
          simp only [List.head?_cons, Option.some.injEq] at hcs
          exact ⟨as, by rw [hcs]⟩
      have hvHead : ∀ d, v.head? = some d → isJsWs d = false := by
        intro d hd
        rw [noWsPair, List.chain'_cons'] at h2
        have h2' := h2.2
        rw [List.chain'_cons'] at h2'
        by_contra hcontra
        exact h2'.1 d hd ⟨by decide, by simpa using hcontra⟩
      have hrun : (' ' :: v).takeWhile isJsWs = [' '] := by
        rw [List.takeWhile_cons_of_pos (by decide)]
        rw [takeWhile_eq_nil_of_head isJsWs hvHead]
      have hnl : '\n' ∉ v := fun hv =>
        noNewline_of_onlySpaceWs h1 (List.mem_cons_of_mem _ (List.mem_cons_of_mem _ hv))
      rw [bulletGo]
      rw [if_pos ⟨rfl, hm⟩]
      simp only [hrun, hc]
      rw [show ([' '] : List Char).length = 1 from rfl]
      rw [show (decide (List.getLast? [' '] = some '\n')) = false from by decide]
      rw [bulletGo_skip 1 false (' ' :: v)]
      simp only [List.drop_succ_cons, List.drop_zero]
      rw [bulletGo_false_eq_self hnl]
    · have hcnl : ¬ c = '\n' := fun hc =>
        noNewline_of_onlySpaceWs h1 (hc ▸ List.mem_cons_self c cs)
      have hdec : (decide (c = '\n')) = false := by simpa using hcnl
      rw [bulletGo, if_neg (by simp [hm]), hdec]
      rw [bulletGo_false_eq_self fun hv =>
        noNewline_of_onlySpaceWs h1 (List.mem_cons_of_mem _ hv)]

theorem bulletGo_establishes {w : List Char} (h1 : onlySpaceWs w) (h2 : noWsPair w) :
    onlySpaceWs (bulletGo 0 true w) ∧ noWsPair (bulletGo 0 true w) ∧
      bulletNormal (bulletGo 0 true w) := by
  cases w with
  | nil =>
    refine ⟨fun c hc => by simp [bulletGo] at hc, ?_, ?_⟩
    · rw [show bulletGo 0 true [] = [] from rfl]
      simp [noWsPair]
    · rw [bulletNormal, show bulletGo 0 true [] = [] from rfl]
      simp
  | cons c cs =>
    have hnlcs : '\n' ∉ cs := fun hv =>
      noNewline_of_onlySpaceWs h1 (List.mem_cons_of_mem _ hv)
    by_cases hm : c = '-' ∨ c = '•' ∨ c = '*'
    · have hrunLast : (decide ((cs.takeWhile isJsWs).getLast? = some '\n')) = false := by
        rw [decide_eq_false_iff_not]
        intro hl
        exact hnlcs ((List.takeWhile_sublist isJsWs).subset (List.mem_of_mem_getLast? hl))
      have hnl : '\n' ∉ cs.dropWhile isJsWs := fun hv =>
        hnlcs ((List.dropWhile_suffix isJsWs).subset hv)
      rw [bulletGo, if_pos ⟨rfl, hm⟩]
      simp only [hrunLast]
      rw [bulletGo_skip, drop_length_takeWhile]
      rw [bulletGo_false_eq_self hnl]
      refine ⟨?_, ?_, ?_⟩
      · intro d hd hws
        rcases List.mem_cons.mp hd with h | h
        · subst h; exact absurd hws (by decide)
        · rcases List.mem_cons.mp h with h' | h'
          · exact h'
          · exact h1 d (List.mem_cons_of_mem _ ((List.dropWhile_suffix isJsWs).subset h')) hws
      · rw [noWsPair, List.chain'_cons', List.chain'_cons']
        refine ⟨?_, ?_, ?_⟩
        · intro b _ hp
          exact absurd hp.1 (by decide)
        · intro b hb hp
          have := head_dropWhile_not isJsWs cs b (Option.mem_def.mp hb)
          rw [this] at hp
          exact absurd hp.2 (by simp)
        · exact (h2.tail).suffix (List.dropWhile_suffix isJsWs)
      · refine ⟨by simp, by simp, ?_⟩
        intro _
        simp
    · have hcnl : ¬ c = '\n' := fun hc =>
        noNewline_of_onlySpaceWs h1 (hc ▸ List.mem_cons_self c cs)
      have hdec : (decide (c = '\n')) = false := by simpa using hcnl
      rw [bulletGo, if_neg (by simp [hm]), hdec, bulletGo_false_eq_self hnlcs]
      have hbn : bulletNormal (c :: cs) := by
        refine ⟨?_, ?_, ?_⟩
        · intro hc
          simp only [List.head?_cons, Option.some.injEq] at hc
          exact hm (Or.inl hc)
        · intro hc
          simp only [List.head?_cons, Option.some.injEq] at hc
          exact hm (Or.inr (Or.inr hc))
        · intro hc
          simp only [List.head?_cons, Option.some.injEq] at hc
          exact absurd (Or.inr (Or.inl hc)) hm
      exact ⟨h1, h2, hbn⟩

theorem mapCR_eq_self : ∀ {u : List Char}, '\r' ∉ u →
    u.map (fun c => if c = '\r' then '\n' else c) = u := by
  intro u
  induction u with
  | nil => intro _; rfl
  | cons a as ih =>
    intro h
    have ha : ¬ a = '\r' := fun hc => h (hc ▸ List.mem_cons_self a as)
    simp only [List.map_cons, if_neg ha]
    rw [ih fun hm => h (List.mem_cons_of_mem _ hm)]

theorem mapTab_eq_self : ∀ {u : List Char}, '\t' ∉ u →
    u.map (fun c => if c = '\t' then ' ' else c) = u := by
  intro u
  induction u with
  | nil => intro _; rfl
  | cons a as ih =>
    intro h
    have ha : ¬ a = '\t' := fun hc => h (hc ▸ List.mem_cons_self a as)
    simp only [List.map_cons, if_neg ha]
    rw [ih fun hm => h (List.mem_cons_of_mem _ hm)]

theorem replaceSeqGo_zero_eq_self {pat rep : List Char} {c0 : Char}
    (hp : pat.head? = some c0) :
    ∀ {l : List Char}, c0 ∉ l → replaceSeqGo pat rep 0 l = l := by
  intro l
  induction l with
  | nil => intro _; rfl
  | cons c cs ih =>
    intro h
    rw [replaceSeqGo]
    rw [if_neg ?_]
    · rw [ih fun hm => h (List.mem_cons_of_mem _ hm)]
    · rintro ⟨hpre, -⟩
      cases pat with
      | nil => simp at hp
      | cons p0 pt =>
        simp only [List.head?_cons, Option.some.injEq] at hp
        have hc0 : c0 = c := by
          rw [← hp]
          exact (List.cons_prefix_cons.mp (List.isPrefixOf_iff_prefix.mp hpre)).1
        exact h (hc0 ▸ List.mem_cons_self c cs)

theorem normalizeContent_normal (t : List Char) :
    onlySpaceWs (normalizeContent t) ∧ noWsPair (normalizeContent t) ∧
      bulletNormal (normalizeContent t) := by
  rw [normalizeContent, keepNumbered, bulletLines, collapseBlankLines, collapseWsRuns]
  rw [fixSingleQuotes_eq_self, fixDoubleQuotes_eq_self]
  have h1 := collapseWsGo_onlySpaceWs
    ((replaceSeq "\r\n".data "\n".data t
        |> List.map (fun c => if c = '\r' then '\n' else c))
      |> List.map (fun c => if c = '\t' then ' ' else c)) false
  have h2 := collapseWsGo_noWsPair
    ((replaceSeq "\r\n".data "\n".data t
        |> List.map (fun c => if c = '\r' then '\n' else c))
      |> List.map (fun c => if c = '\t' then ' ' else c)) false
  rw [collapseBlankGo_eq_self (noNewline_of_onlySpaceWs h1)]
  exact bulletGo_establishes h1 h2

theorem normalizeContent_eq_self {u : List Char} (h1 : onlySpaceWs u) (h2 : noWsPair u)
    (h3 : bulletNormal u) : normalizeContent u = u := by
  have hr : '\r' ∉ u := onlySpaceWs_no_mem h1 (by decide) (by decide)
  have ht : '\t' ∉ u := onlySpaceWs_no_mem h1 (by decide) (by decide)
  have hn : '\n' ∉ u := noNewline_of_onlySpaceWs h1
  rw [normalizeContent, keepNumbered]
  rw [show replaceSeq "\r\n".data "\n".data u = u from
    replaceSeqGo_zero_eq_self (by decide) hr]
  rw [mapCR_eq_self hr, mapTab_eq_self ht]
  rw [show collapseWsRuns u = u from collapseWsGo_eq_self h1 h2]
  rw [collapseBlankLines, collapseBlankGo_eq_self hn]
  rw [fixDoubleQuotes_eq_self, fixSingleQuotes_eq_self, bulletLines]
  exact bulletGo_eq_self h1 h2 h3

end ClientNotesParser

/-- C7 (amended): the content-normalization stage alone is idempotent —
for every input `t`, `normalizeContent (normalizeContent t) =
normalizeContent t`. -/
theorem c7_normalizeContent_idempotent (t : List Char) :
    ClientNotesParser.normalizeContent (ClientNotesParser.normalizeContent t) =
      ClientNotesParser.normalizeContent t := by
  obtain ⟨h1, h2, h3⟩ := ClientNotesParser.normalizeContent_normal t
  exact ClientNotesParser.normalizeContent_eq_self h1 h2 h3

/-- C7 (counterexample): the full normalization pipeline — preprocessing
(`DocumentPreprocessor.process`) followed by content normalization
(`normalizeContent`) — is not idempotent.  On `"a [b\nc] d"` the first
pass joins the lines, and the second pass's markdown-link stripping then
deletes the newly adjacent `[b c]`. -/
theorem c7_pipeline_not_idempotent :
    ¬ (ClientNotesParser.normalizeContent (DocumentPreprocessor.process
          (ClientNotesParser.normalizeContent (DocumentPreprocessor.process "a [b\nc] d".data))) =
        ClientNotesParser.normalizeContent (DocumentPreprocessor.process "a [b\nc] d".data)) := by
  decide

example :
    ClientNotesParser.normalizeContent
      "Client: Acme Corp\nIndustry: Software\nCompetitors: Foo, Bar".data =
    "Client: Acme Corp Industry: Software Competitors: Foo, Bar".data := by decide

example :
    DocumentPreprocessor.process "a [b\nc] d".data = "a [b\nc] d".data := by decide

example :
    ClientNotesParser.normalizeContent (DocumentPreprocessor.process "a [b\nc] d".data) =
    "a [b c] d".data := by decide

example :
    ClientNotesParser.normalizeContent (DocumentPreprocessor.process "a [b c] d".data) =
    "a d".data := by decide

/-! ### The claims -/

section ClaimProofs

set_option maxRecDepth 100000

attribute [local semireducible] Rat.add Rat.mul Rat.inv Rat.sub

open ClientNotesParser

theorem mergeStrField_ne_nil (e n : Str) (h : e ≠ []) : mergeStrField e n ≠ [] := by
  unfold mergeStrField
  split_ifs with hc
  · exact hc.1
  · exact h

theorem mergeListField_ne_nil (e n : List Str) (h : e ≠ []) : mergeListField e n ≠ [] := by
  unfold mergeListField
  split_ifs with hc
  · simp only [isBetterList, decide_eq_true_eq] at hc
    have : 0 < e.length := List.length_pos.mpr h
    exact List.ne_nil_of_length_pos (by omega)
  · exact h

/-- C6: merging a strategy's partial result never clears a populated
field: every non-empty string or list field of the accumulator stays
non-empty, the `sources` and `briefingInfo` objects are kept verbatim
(`Object.keys` counts are constant, so `isBetterValue` never replaces
them), and a present `expectedCompetitors` stays present. -/
theorem c6_merge_never_clears (existing newData : Profile) :
    ((existing.clientName ≠ [] → (mergeResults existing newData).clientName ≠ []) ∧
     (existing.industry ≠ [] → (mergeResults existing newData).industry ≠ []) ∧
     (existing.games ≠ [] → (mergeResults existing newData).games ≠ []) ∧
     (existing.executives ≠ [] → (mergeResults existing newData).executives ≠ []) ∧
     (existing.competitors ≠ [] → (mergeResults existing newData).competitors ≠ []) ∧
     (existing.excludedTopics ≠ [] → (mergeResults existing newData).excludedTopics ≠ []) ∧
     (existing.contacts ≠ [] → (mergeResults existing newData).contacts ≠ [])) ∧
    (mergeResults existing newData).sources = existing.sources ∧
    (mergeResults existing newData).briefingInfo = existing.briefingInfo ∧
    (existing.expectedCompetitors ≠ none →
      (mergeResults existing newData).expectedCompetitors ≠ none) := by
  refine ⟨⟨?_, ?_, ?_, ?_, ?_, ?_, ?_⟩, ?_, ?_, ?_⟩
  · exact mergeStrField_ne_nil _ _
  · exact mergeStrField_ne_nil _ _
  · exact mergeListField_ne_nil _ _
  · exact mergeListField_ne_nil _ _
  · exact mergeListField_ne_nil _ _
  · exact mergeListField_ne_nil _ _
  · exact mergeListField_ne_nil _ _
  · simp [mergeResults, isBetterKeys, Sources.jsKeys]
  · simp [mergeResults, isBetterKeys, BriefingInfo.jsKeys]
  · intro h
    simp only [mergeResults]
    match hn : newData.expectedCompetitors, he : existing.expectedCompetitors with
    | none, e => simpa [he] using h
    | some nv, none => simp
    | some nv, some e =>
      simp only
      split_ifs <;> simp

/-- C6 witness: a populated client name survives a merge with an
all-empty incoming profile. -/
theorem c6_merge_never_clears_witness :
    (mergeResults { initializeParsedData with clientName := "A".data }
      initializeParsedData).clientName ≠ [] :=
  (c6_merge_never_clears { initializeParsedData with clientName := "A".data }
    initializeParsedData).1.1 (by decide)

/-- C1: on the minimal labeled brief, `normalizeContent` collapses the
newlines (`/\s+/g → ' '`) before extraction, so the key–value pass reads
the whole collapsed line as the client name, the industry pattern
overshoots to the end of the text, no competitors are found, and the
overall confidence lands at 0.46 — every part of the claimed outcome
fails. -/
theorem c1_minimal_brief_diverges :
    (let r := (parse defaultEngine 0
        "Client: Acme Corp\nIndustry: Software\nCompetitors: Foo, Bar".data
        { fileName := none }).2
     r.data.clientName = "Acme Corp Industry: Software Competitors: Foo, Bar".data ∧
     r.data.industry = "Software Competitors: Foo, Bar".data ∧
     r.data.competitors = [] ∧
     r.confidence.overall = 23/50 ∧
     ¬(r.data.clientName = "Acme Corp".data ∧ r.data.industry = "Software".data ∧
       "Foo".data ∈ r.data.competitors ∧ "Bar".data ∈ r.data.competitors ∧
       1/2 ≤ r.confidence.overall)) := by decide

/-- C2: `isBetterValue` compares `Object.keys().length` of the two
objects — a constant 4 for sources — so a sources object with populated
tiers never replaces the initial empty one in a merge; and the tiered
scenario input, after newline collapse, parses to empty tiers. -/
theorem c2_tiered_sources_diverge :
    (mergeResults initializeParsedData
        { initializeParsedData with sources :=
            { tier1 := ["IGN".data, "GameSpot".data], tier2 := ["PC Gamer".data],
              tier3 := [], handSearch := [] } }).sources =
      initializeParsedData.sources ∧
    (let r := (parse defaultEngine 0
        "Client: Acme\nTier 1: IGN, GameSpot\nTier 2: PC Gamer".data
        { fileName := none }).2
     r.data.sources.tier1 = [] ∧ r.data.sources.tier2 = []) := by decide

/-- C3: on a narrative input whose only signal is a four-times-repeated
capitalized phrase, the merged confidence (0) is below the threshold
(0.6) and the fallback runs — its keyword-density heuristic yields
"Acme Corp" with a positive improvement score — but the adoption guard
compares the fallback's confidence *object* against a number, which is
always false, so the parse still returns an empty client name; and no
warning mentions the fallback. -/
theorem c3_fallback_never_adopted :
    (let content := "Acme Corp builds widgets. Acme Corp sells widgets. Acme Corp ships widgets. Acme Corp hires people.".data
     let r := (parse defaultEngine 0 content { fileName := none }).2
     let norm := normalizeContent (DocumentPreprocessor.process content)
     let pre := postProcess (mergedProfile defaultEngine none norm
       (analyzeDocumentStructure defaultEngine.fieldVariations norm)) norm
     let fb := FallbackParser.fbParse norm pre
     r.confidence.overall = 0 ∧ defaultOptions.confidenceThreshold = 6/10 ∧
     r.data.clientName = [] ∧
     fb.2.1.clientName = "Acme Corp".data ∧ fb.2.2 = 1/9 ∧
     jsFbObjGtNum fb.2.2 0 = false ∧
     r.warnings.map (fun w => w.message) =
       ["Client name could not be extracted".data,
        "Overall confidence (0%) is below threshold".data,
        "No competitors were identified".data,
        "Required field 'clientName' is missing".data]) := by decide

/-- C4: `checkCache` consults only the entry's age, never its stored
confidence — an entry stored with confidence 0 is returned — and in
`parse` the guard `cachedResult.confidence > 0.9` compares an object
against a number (always false), so even a fresh full-confidence entry
never short-circuits: the result equals a from-scratch parse. -/
theorem c4_cache_never_short_circuits :
    (let md : Metadata := { fileName := none }
     let content := "hello world".data
     let norm := normalizeContent (DocumentPreprocessor.process content)
     let lowRes : ParseResult :=
       { data := { initializeParsedData with clientName := "CACHED".data }
         confidence := { overall := 0, rest := none }
         documentType := "unknown".data
         validation := { isValid := true, issues := [], score := 1 }
         warnings := []
         metadata := md }
     let hiRes : ParseResult := { lowRes with confidence := { overall := 1, rest := none } }
     let entryLow : ParsingCache.CacheEntry :=
       { result := lowRes, metadata := md, timestamp := 0, accessCount := 0 }
     let entryHi : ParsingCache.CacheEntry :=
       { result := hiRes, metadata := md, timestamp := 0, accessCount := 0 }
     let stHi : EngineState :=
       { defaultEngine with documentCache := [(ParsingCache.generateHash norm, entryHi)] }
     ParsingCache.checkCache [(ParsingCache.generateHash norm, entryLow)] 0 norm =
       some lowRes ∧
     (parse stHi 0 content md).2 = (parse defaultEngine 0 content md).2 ∧
     (parse stHi 0 content md).2.data.clientName ≠ "CACHED".data) := by decide

/-- C5 (amended): parsing the empty string returns the all-empty
initialized profile with overall confidence 0, but *two* error-level
warnings — `generateWarnings` emits its own missing-client-name error and
then copies the validator's required-field error — both about the client
name. -/
theorem c5_empty_input_amended :
    (let r := (parse defaultEngine 0 [] { fileName := none }).2
     r.data = initializeParsedData ∧
     r.confidence.overall = 0 ∧
     (r.warnings.filter (fun w => w.level == "error".data)).map (fun w => w.message) =
       ["Client name could not be extracted".data,
        "Required field 'clientName' is missing".data]) := by decide

/-- C5 (counterexample): the empty-string parse carries two error-level
warnings, not exactly one. -/
theorem c5_empty_input_two_errors :
    ((parse defaultEngine 0 [] { fileName := none }).2.warnings.filter
        (fun w => w.level == "error".data)).length = 2 := by decide

/-- C9 (counterexample): a `fileName` passed to an earlier parse bleeds
into later calls — the first call writes the detected client type into
`this.options`, so a second call on a fresh piece of content inherits
the rackspace industry default, unlike the same call on a fresh
engine. -/
theorem c9_metadata_bleeds_across_calls :
    (let md : Metadata := { fileName := none }
     let st1 := (parse defaultEngine 0 "hello world".data
       { fileName := some "rackspace_notes.txt".data }).1
     st1.options.clientType = some "rackspace".data ∧
     (parse st1 0 "hello world".data md).2.data.industry =
       "Cloud Technology / Managed Services".data ∧
     (parse defaultEngine 0 "hello world".data md).2.data.industry = [] ∧
     (parse st1 0 "hello world".data md).2 ≠
       (parse defaultEngine 0 "hello world".data md).2) := by decide

/-- C10: on a low-confidence input, the fallback's table pass pushes into
the shared competitors array and its sentence pass writes the shared
sources object, so the profile `parse` returns carries those writes —
competitors and tier1 populated — even though the merged profile before
the fallback had neither, and the fallback result itself was never
adopted (the returned overall confidence is still the pre-fallback 0). -/
theorem c10_fallback_mutates_without_adoption :
    (let content := "Competitors| Alpha, Beta\nSources include the following. - AlphaNews - BetaDaily".data
     let r := (parse defaultEngine 0 content { fileName := none }).2
     let norm := normalizeContent (DocumentPreprocessor.process content)
     let pre := postProcess (mergedProfile defaultEngine none norm
       (analyzeDocumentStructure defaultEngine.fieldVariations norm)) norm
     pre.competitors = [] ∧ pre.sources.flatLen = 0 ∧
     r.confidence.overall = 0 ∧
     r.data.competitors =
       ["Alpha".data,
        "Beta Sources include the following. - AlphaNews - BetaDaily".data] ∧
     r.data.sources.tier1 = ["AlphaNews - BetaDaily".data]) := by decide

theorem updatedCaches_options (st : EngineState) (now : Nat) (norm : Str) (p : Profile)
    (c : Confidence) (r : ParseResult) (md : Metadata) :
    (updatedCaches st now norm p c r md).options = st.options ∧
    (updatedCaches st now norm p c r md).fieldVariations = st.fieldVariations := by
  unfold updatedCaches
  split_ifs <;> exact ⟨rfl, rfl⟩

/-- C9 (amended): across a call to `parse`, the field variations and all
constructor options except `clientType` are unchanged — the caches are
the mutable stores — but `clientType` is *written back* into the options:
when it was unset and the metadata carries a file name, the detected
client type persists on the engine, so later parses on the same engine
can see earlier calls' metadata. -/
theorem c9_engine_state_frame (st : EngineState) (now : Nat) (content : Str)
    (md : Metadata) :
    ((parse st now content md).1.fieldVariations = st.fieldVariations ∧
     (parse st now content md).1.options.enableFuzzyMatching =
       st.options.enableFuzzyMatching ∧
     (parse st now content md).1.options.confidenceThreshold =
       st.options.confidenceThreshold ∧
     (parse st now content md).1.options.enableMLFeatures =
       st.options.enableMLFeatures ∧
     (parse st now content md).1.options.enableCaching = st.options.enableCaching ∧
     (parse st now content md).1.options.customPatterns = st.options.customPatterns) ∧
    ((parse st now content md).1.options.clientType = st.options.clientType ∨
     (st.options.clientType = none ∧ ∃ f, md.fileName = some f ∧
       (parse st now content md).1.options.clientType = detectClientFromFilename f)) := by
  simp only [parse]
  split
  · exact ⟨⟨rfl, rfl, rfl, rfl, rfl, rfl⟩, Or.inl rfl⟩
  · rw [(updatedCaches_options _ _ _ _ _ _ _).1, (updatedCaches_options _ _ _ _ _ _ _).2]
    refine ⟨⟨rfl, rfl, rfl, rfl, rfl, rfl⟩, ?_⟩
    rcases hct : st.options.clientType with _ | ct
    · rcases hmd : md.fileName with _ | f
      · exact Or.inl (by simp [detectedClientType, hct, hmd])
      · exact Or.inr ⟨rfl, f, rfl, by simp [detectedClientType, hct, hmd]⟩
    · exact Or.inl (by simp [detectedClientType, hct])

end ClaimProofs
